import Mathlib

/-!
Shallow embedding of the rafty Raft core (peer state machine, client, and
deterministic simulator actions) together with theorems settling the
specification claims. Definitions are translated from the Rust sources in
`src/`; Rust `usize` counters and identifiers are modelled as `Nat`
(their increments stay far below any wrap-around in every scenario the
library can drive), `BTreeMap`/`BTreeSet` as association lists / sorted
lists with the corresponding operations, and fallible storage writes are
threaded with explicit success oracles at exactly the call sites where the
source handles a failure. Call sites where the source unwraps (panics on
storage failure) are modelled on their success path, and the panicking
control-flow branches (`unreachable!`, `unimplemented!`, failed asserts)
are modelled as `Option.none` results.
-/

namespace Rafty

/-- Application payload bundle: the associated types and operations the core
is polymorphic over (`Application`, `Machine`, `Command` traits). -/
structure App where
  Command : Type
  CommandResult : Type
  Query : Type
  QueryResult : Type
  Machine : Type
  StorageError : Type
  noOp : Command
  machineDefault : Machine
  applyCmd : Machine → Command → Machine × CommandResult
  runQuery : Machine → Query → QueryResult

/-- `LogEntry`: triple of index, term and command (log.rs). -/
structure LogEntry (A : App) where
  index : Nat
  term : Nat
  command : A.Command

/-- `Snapshot`: machine checkpoint with the index/term of the last entry it
subsumes (snapshot.rs). -/
structure Snapshot (A : App) where
  lastIncludedIndex : Nat
  lastIncludedTerm : Nat
  machine : A.Machine

/-- `Snapshot::default()`: indices zero and the default machine. -/
def Snapshot.default (A : App) : Snapshot A :=
  ⟨0, 0, A.machineDefault⟩

/-- In-memory view of the peer's storage: persistent current term, voted
for, log and snapshot (storage.rs trait state). -/
structure Storage (A : App) where
  currentTerm : Nat
  votedFor : Option Nat
  log : List (LogEntry A)
  snapshot : Snapshot A

/-- `truncate_log(down_to)`: removes every entry with `index ≥ down_to`
(storage.rs contract). -/
def Storage.truncateLog (st : Storage A) (downTo : Nat) : Storage A :=
  { st with log := st.log.filter (fun e => decide (e.index < downTo)) }

/-- Lookup of the log entry with a given index together with its position,
as performed by `binary_search_by` on the index (log.rs `Log::entry` and the
direct searches in the handlers). On logs sorted by index, which is every
log this development evaluates the search on, binary search finds a
position holding an entry with the sought index exactly when one exists;
this is modelled by first-match lookup. -/
def logLookup (log : List (LogEntry A)) (i : Nat) : Option (Nat × LogEntry A) :=
  match log.findIdx? (fun e => decide (e.index = i)) with
  | none => none
  | some pos =>
    match log.get? pos with
    | none => none
    | some e => some (pos, e)

/-- Index and term of the last log entry, or of the snapshot when the log
is empty (the `log().last().map(..).unwrap_or(snapshot()..)` pattern). -/
def Storage.lastIndexTerm (st : Storage A) : Nat × Nat :=
  match st.log.getLast? with
  | some e => (e.index, e.term)
  | none => (st.snapshot.lastIncludedIndex, st.snapshot.lastIncludedTerm)

/-- `Vote` outcome of a request-vote reply (request_vote_reply.rs). -/
inductive Vote where
  | notGrantedDueToBeingInHigherTerm
  | notGrantedDueToBeingLessUpToDate
  | notGrantedDueToBeingGrantedToAnotherPeer
  | notGrantedDueToStorageError
  | granted
deriving DecidableEq

/-- `RequestVoteRequest` message. -/
structure RequestVoteRequest where
  term : Nat
  candidateId : Nat
  lastLogIndex : Nat
  lastLogTerm : Nat
deriving DecidableEq

/-- `RequestVoteReply` message. -/
structure RequestVoteReply where
  term : Nat
  vote : Vote
deriving DecidableEq

/-- `AppendEntriesRequest` message. -/
structure AppendEntriesRequest (A : App) where
  term : Nat
  leaderId : Nat
  prevLogIndex : Nat
  prevLogTerm : Nat
  entries : List (LogEntry A)
  leaderCommit : Nat

/-- `AppendEntriesReply` message. -/
structure AppendEntriesReply where
  term : Nat
  success : Bool
deriving DecidableEq

/-- `PeerMessage`: the four peer-to-peer message variants. -/
inductive PeerMessage (A : App) where
  | requestVoteRequest (r : RequestVoteRequest)
  | requestVoteReply (r : RequestVoteReply)
  | appendEntriesRequest (r : AppendEntriesRequest A)
  | appendEntriesReply (r : AppendEntriesReply)

/-- `PeerMessage::is_request`. -/
def PeerMessage.isRequest : PeerMessage A → Bool
  | .requestVoteRequest _ => true
  | .appendEntriesRequest _ => true
  | _ => false

/-- `PeerMessage::is_reply`. -/
def PeerMessage.isReply : PeerMessage A → Bool
  | .requestVoteReply _ => true
  | .appendEntriesReply _ => true
  | _ => false

/-- `PeerTransmit`: an enqueued outbound peer message with its target peer
and correlation request id (transmit.rs). -/
structure PeerTransmit (A : App) where
  peerId : Nat
  requestId : Nat
  message : PeerMessage A

/-- Client-visible errors (errors.rs). -/
inductive ClientError (A : App) where
  | emptyCluster
  | leaderUnknown
  | leaderChanged (newLeaderId : Nat)
  | storageError (underlyingError : A.StorageError)

/-- `CommandRequest` client message. -/
structure CommandRequest (A : App) where
  command : A.Command

/-- `CommandReply` client message. -/
structure CommandReply (A : App) where
  result : Except (ClientError A) A.CommandResult

/-- `QueryRequest` client message. -/
structure QueryRequest (A : App) where
  query : A.Query

/-- `QueryReply` client message. -/
structure QueryReply (A : App) where
  result : Except (ClientError A) A.QueryResult

/-- `ClientMessage`: the client-to-peer and peer-to-client variants. -/
inductive ClientMessage (A : App) where
  | commandRequest (r : CommandRequest A)
  | commandReply (r : CommandReply A)
  | queryRequest (r : QueryRequest A)
  | queryReply (r : QueryReply A)

/-- `ClientMessage::is_request`. -/
def ClientMessage.isRequest : ClientMessage A → Bool
  | .commandRequest _ => true
  | .queryRequest _ => true
  | _ => false

/-- `ClientMessage::is_reply`. -/
def ClientMessage.isReply : ClientMessage A → Bool
  | .commandReply _ => true
  | .queryReply _ => true
  | _ => false

/-- `ClientTransmit`: an enqueued message between a peer and a client. -/
structure ClientTransmit (A : App) where
  clientId : Nat
  peerId : Nat
  requestId : Nat
  message : ClientMessage A

/-- Association-list model of `BTreeMap<Nat, α>` lookup: value of the first
binding of the key. -/
def mapGet? (m : List (Nat × α)) (k : Nat) : Option α :=
  (m.find? (fun e => decide (e.1 = k))).map (·.2)

/-- Association-list model of `BTreeMap::insert`: replaces the first
binding of the key, or appends a new binding. -/
def mapInsert (m : List (Nat × α)) (k : Nat) (v : α) : List (Nat × α) :=
  match m with
  | [] => [(k, v)]
  | e :: rest => if e.1 = k then (k, v) :: rest else e :: mapInsert rest k v

/-- Association-list model of `BTreeMap::remove`: drops the first binding
of the key. -/
def mapRemove (m : List (Nat × α)) (k : Nat) : List (Nat × α) :=
  match m with
  | [] => []
  | e :: rest => if e.1 = k then rest else e :: mapRemove rest k

/-- Update-in-place of an existing binding (the `get_mut` pattern): the
first binding of the key is set to the new value; absent keys are left
untouched. -/
def mapAdjust (m : List (Nat × α)) (k : Nat) (v : α) : List (Nat × α) :=
  match m with
  | [] => []
  | e :: rest => if e.1 = k then (k, v) :: rest else e :: mapAdjust rest k v

/-- Values of an association-list map. -/
def mapValues (m : List (Nat × α)) : List α :=
  m.map (·.2)

/-- Sorted-list model of `BTreeSet::insert`. -/
def setInsert (s : List Nat) (x : Nat) : List Nat :=
  match s with
  | [] => [x]
  | y :: rest =>
    if x < y then x :: y :: rest
    else if x = y then y :: rest
    else y :: setInsert rest x

/-- `CandidateState`: granted votes and the outstanding vote request ids
(role.rs). -/
structure CandidateState where
  votesGranted : Nat
  voteRequestIds : List Nat

/-- `LeaderState`: next/match indices and the recorded outstanding append
entries requests (role.rs). -/
structure LeaderState (A : App) where
  nextIndex : List (Nat × Nat)
  matchIndex : List (Nat × Nat)
  appendEntriesRequests : List (Nat × AppendEntriesRequest A)

/-- `Role` of a peer (role.rs). -/
inductive Role (A : App) where
  | follower (leaderId : Option Nat)
  | candidate (cs : CandidateState)
  | leader (ls : LeaderState A)

/-- `Consistency` requirement (primitives.rs). -/
inductive Consistency where
  | strong
  | eventual
deriving DecidableEq

/-- `Peer`: the Raft state machine (peer.rs). `requestCounter` models the
`RequestCounter`; `next()` returns the current value and increments. -/
structure Peer (A : App) where
  id : Nat
  cluster : List Nat
  consistency : Consistency
  role : Role A
  machine : A.Machine
  storage : Storage A
  commitIndex : Nat
  lastApplied : Nat
  requestCounter : Nat
  bufferedPeerTransmits : List (PeerTransmit A)
  bufferedClientTransmits : List (ClientTransmit A)

/-- `Peer::new`: loads machine, commit index and last applied from the
snapshot; starts as a follower without a leader. -/
def Peer.new (A : App) (id : Nat) (cluster : List Nat) (consistency : Consistency)
    (storage : Storage A) : Peer A :=
  { id := id
    cluster := cluster
    consistency := consistency
    role := .follower none
    machine := storage.snapshot.machine
    storage := storage
    commitIndex := storage.snapshot.lastIncludedIndex
    lastApplied := storage.snapshot.lastIncludedIndex
    requestCounter := 0
    bufferedPeerTransmits := []
    bufferedClientTransmits := [] }

/-- `Peer::majority()`: `cluster.len() / 2 + 1`. -/
def Peer.majority (p : Peer A) : Nat :=
  p.cluster.length / 2 + 1

/-- `Peer::current_term()`. -/
def Peer.currentTerm (p : Peer A) : Nat :=
  p.storage.currentTerm

/-- `Peer::voted_for()`. -/
def Peer.votedFor (p : Peer A) : Option Nat :=
  p.storage.votedFor

/-- Steps 3-7 of `AppendEntriesRequest::receive` (append_entries_request.rs
lines 60-111): after the term/consistency checks passed, adopt a higher
term, adjust the role, append the carried entries, and set the commit index
to the leader's commit. A leader receiving an accepted request in its own
term is `unreachable!`, modelled as `none`. The storage writes here are
unwrapped in the source (panic on failure), so they are modelled on the
success path. -/
def appendEntriesAccept (msg : AppendEntriesRequest A) (sendingPeerId : Nat)
    (currentTerm : Nat) (p : Peer A) : Option (AppendEntriesReply × Peer A) :=
  let p :=
    if currentTerm < msg.term then
      { p with
        role := .follower (some sendingPeerId)
        storage := { p.storage with currentTerm := msg.term } }
    else p
  match p.role with
  | .leader _ => none
  | .follower _ =>
    let p := { p with role := .follower (some sendingPeerId) }
    let p := { p with storage := { p.storage with log := p.storage.log ++ msg.entries } }
    let p := { p with commitIndex := msg.leaderCommit }
    some (⟨currentTerm, true⟩, p)
  | .candidate _ =>
    let p := { p with role := .follower (some sendingPeerId) }
    let p := { p with storage := { p.storage with log := p.storage.log ++ msg.entries } }
    let p := { p with commitIndex := msg.leaderCommit }
    some (⟨currentTerm, true⟩, p)

/-- `AppendEntriesRequest::receive` (append_entries_request.rs): reject
stale terms, run the consistency check at `prev_log_index` (truncating on a
term conflict), then accept via `appendEntriesAccept`. -/
def AppendEntriesRequest.receive (msg : AppendEntriesRequest A) (sendingPeerId : Nat)
    (p : Peer A) : Option (AppendEntriesReply × Peer A) :=
  let currentTerm := p.storage.currentTerm
  if msg.term < currentTerm then
    some (⟨currentTerm, false⟩, p)
  else if msg.prevLogIndex ≠ 0 then
    match logLookup p.storage.log msg.prevLogIndex with
    | none => some (⟨currentTerm, false⟩, p)
    | some (_, prevLog) =>
      if prevLog.term ≠ msg.prevLogTerm then
        some (⟨currentTerm, false⟩, { p with storage := p.storage.truncateLog prevLog.index })
      else
        appendEntriesAccept msg sendingPeerId currentTerm p
  else
    appendEntriesAccept msg sendingPeerId currentTerm p

/-- Steps 4-6 of `RequestVoteRequest::receive` (request_vote_request.rs
lines 94-145): the second voted-for check, the up-to-date check, and the
final `set_voted_for(sender)` write whose success is `ok2`; per the storage
contract a failed write leaves the in-memory view rolled back. `replyTerm`
is the term already placed in the reply. -/
def voteUpToDateCheck (msg : RequestVoteRequest) (sendingPeerId : Nat) (ok2 : Bool)
    (replyTerm : Nat) (p : Peer A) : RequestVoteReply × Peer A :=
  match p.votedFor with
  | some votedPeerId =>
    if votedPeerId ≠ sendingPeerId then
      (⟨replyTerm, .notGrantedDueToBeingGrantedToAnotherPeer⟩, p)
    else
      (⟨replyTerm, .granted⟩, p)
  | none =>
    if p.storage.lastIndexTerm.2 < msg.lastLogTerm ∨
        (msg.lastLogTerm = p.storage.lastIndexTerm.2 ∧
          p.storage.lastIndexTerm.1 ≤ msg.lastLogIndex) then
      if ok2 then
        (⟨replyTerm, .granted⟩,
          { p with storage := { p.storage with votedFor := some sendingPeerId } })
      else
        (⟨replyTerm, .notGrantedDueToStorageError⟩, p)
    else
      (⟨replyTerm, .notGrantedDueToBeingLessUpToDate⟩, p)

/-- `RequestVoteRequest::receive` (request_vote_request.rs). `ok1` is the
success of the `set_current_term_and_voted_for(msg.term, None)` write in
the higher-term branch; on a repeated request in the same term from the
peer already voted for, the source returns the initial `Granted` reply
without running the up-to-date check. -/
def RequestVoteRequest.receive (msg : RequestVoteRequest) (sendingPeerId : Nat)
    (ok1 ok2 : Bool) (p : Peer A) : RequestVoteReply × Peer A :=
  let currentTerm := p.currentTerm
  if msg.term < currentTerm then
    (⟨currentTerm, .notGrantedDueToBeingInHigherTerm⟩, p)
  else if msg.term = currentTerm ∧ (p.votedFor).isSome then
    match p.votedFor with
    | some votedPeerId =>
      if votedPeerId ≠ sendingPeerId then
        (⟨currentTerm, .notGrantedDueToBeingGrantedToAnotherPeer⟩, p)
      else
        (⟨currentTerm, .granted⟩, p)
    | none => (⟨currentTerm, .granted⟩, p)
  else if currentTerm < msg.term then
    if ok1 = false then
      (⟨currentTerm, .notGrantedDueToStorageError⟩, p)
    else
      voteUpToDateCheck msg sendingPeerId ok2 msg.term
        { p with storage := { p.storage with currentTerm := msg.term, votedFor := none } }
  else
    voteUpToDateCheck msg sendingPeerId ok2 currentTerm p

/-- One iteration of the fan-out loops that enqueue an AppendEntries to
every other peer with a fresh request id and record it in
`append_entries_requests` (peer.rs `become_leader` and
`trigger_heartbeat_timeout`, command_request.rs): skip self, allot the next
request id, push the transmit, record the request. -/
def aeFanoutStep (selfId : Nat) (request : AppendEntriesRequest A)
    (acc : Nat × List (PeerTransmit A) × List (Nat × AppendEntriesRequest A))
    (peerId : Nat) : Nat × List (PeerTransmit A) × List (Nat × AppendEntriesRequest A) :=
  if peerId = selfId then acc
  else
    (acc.1 + 1, acc.2.1 ++ [⟨peerId, acc.1, .appendEntriesRequest request⟩],
      mapInsert acc.2.2 acc.1 request)

/-- One iteration of the fan-out loop that enqueues a RequestVote to every
other peer with a fresh request id and collects the ids (peer.rs
`trigger_election_timeout`). -/
def rvFanoutStep (selfId : Nat) (request : RequestVoteRequest)
    (acc : Nat × List (PeerTransmit A) × List Nat)
    (peerId : Nat) : Nat × List (PeerTransmit A) × List Nat :=
  if peerId = selfId then acc
  else
    (acc.1 + 1, acc.2.1 ++ [⟨peerId, acc.1, .requestVoteRequest request⟩],
      setInsert acc.2.2 acc.1)

/-- Closed form of the transmits a fan-out loop enqueues: one transmit per
listed peer, carrying consecutive request ids starting at `c0`. -/
def transmitsFrom (msg : PeerMessage A) (c0 : Nat) : List Nat → List (PeerTransmit A)
  | [] => []
  | q :: rest => ⟨q, c0, msg⟩ :: transmitsFrom msg (c0 + 1) rest

/-- Closed form of the vote-request-id set a fan-out loop collects:
consecutive request ids starting at `c0`, one per listed peer. -/
def idsFrom (c0 : Nat) : List Nat → List Nat
  | [] => []
  | _ :: rest => c0 :: idsFrom (c0 + 1) rest

/-- Closed form of the request records a fan-out loop inserts: one binding
per listed peer, at consecutive request ids starting at `c0`. -/
def requestsFrom (request : AppendEntriesRequest A) (c0 : Nat) : List Nat → List (Nat × AppendEntriesRequest A)
  | [] => []
  | _ :: rest => (c0, request) :: requestsFrom request (c0 + 1) rest

/-- `Peer::become_leader` (peer.rs lines 348-427): compute the previous
index/term from the last entry or snapshot, append the no-op entry at the
next index in the current term, enqueue an AppendEntries carrying it to
every other peer with fresh request ids while recording each request, and
initialize `next_index`/`match_index`. The no-op append is unwrapped in the
source, modelled as success. -/
def Peer.becomeLeader (p : Peer A) : Peer A :=
  let last := p.storage.lastIndexTerm
  let noOpLogIndex := last.1 + 1
  let noOpEntry : LogEntry A := ⟨noOpLogIndex, p.currentTerm, A.noOp⟩
  let p := { p with storage := { p.storage with log := p.storage.log ++ [noOpEntry] } }
  let request : AppendEntriesRequest A :=
    { term := p.currentTerm
      leaderId := p.id
      prevLogIndex := last.1
      prevLogTerm := last.2
      entries := [noOpEntry]
      leaderCommit := p.commitIndex }
  let fin := p.cluster.foldl (aeFanoutStep p.id request) (p.requestCounter, [], [])
  let nextIndex := (p.cluster.filter (fun q => q ≠ p.id)).map (fun q => (q, noOpLogIndex + 1))
  let matchIndex := p.cluster.map
    (fun q => (q, if q = p.id then noOpLogIndex else p.storage.snapshot.lastIncludedIndex))
  { p with
    role := .leader ⟨nextIndex, matchIndex, fin.2.2⟩
    requestCounter := fin.1
    bufferedPeerTransmits := p.bufferedPeerTransmits ++ fin.2.1 }

/-- `Peer::trigger_election_timeout` (peer.rs lines 135-198). `okW` is the
success of the `set_current_term_and_voted_for(new_term, self)` write; on
failure the peer logs and returns with no state change. A single-peer
cluster becomes leader immediately; otherwise the peer becomes a candidate
with one granted vote and a RequestVote enqueued to every other peer. -/
def Peer.triggerElectionTimeout (okW : Bool) (p : Peer A) : Peer A :=
  let newTerm := p.currentTerm + 1
  if okW = false then p
  else
    let p := { p with storage := { p.storage with currentTerm := newTerm, votedFor := some p.id } }
    if p.cluster.length = 1 then
      p.becomeLeader
    else
      let request : RequestVoteRequest :=
        { term := p.currentTerm
          candidateId := p.id
          lastLogIndex := p.storage.lastIndexTerm.1
          lastLogTerm := p.storage.lastIndexTerm.2 }
      let fin := p.cluster.foldl (rvFanoutStep p.id request) (p.requestCounter, [], [])
      { p with
        role := .candidate ⟨1, fin.2.2⟩
        requestCounter := fin.1
        bufferedPeerTransmits := p.bufferedPeerTransmits ++ fin.2.1 }

/-- `Peer::trigger_heartbeat_timeout` (peer.rs lines 201-246): the request
is constructed first; only a leader enqueues it (with fresh request ids,
recording each request) while a follower or candidate merely logs a
warning and changes nothing. -/
def Peer.triggerHeartbeatTimeout (p : Peer A) : Peer A :=
  let request : AppendEntriesRequest A :=
    { term := p.currentTerm
      leaderId := p.id
      prevLogIndex := p.storage.lastIndexTerm.1
      prevLogTerm := p.storage.lastIndexTerm.2
      entries := []
      leaderCommit := p.commitIndex }
  match p.role with
  | .leader ls =>
    let fin := p.cluster.foldl (aeFanoutStep p.id request)
      (p.requestCounter, [], ls.appendEntriesRequests)
    { p with
      role := .leader { ls with appendEntriesRequests := fin.2.2 }
      requestCounter := fin.1
      bufferedPeerTransmits := p.bufferedPeerTransmits ++ fin.2.1 }
  | _ => p

/-- The loop of `Peer::apply_committed`, with fuel `commit_index -
last_applied`: advance `last_applied` one at a time, look the entry up by
index and apply its command; a missing entry is the `unreachable!` branch,
modelled as `none`. -/
def applyCommittedGo (A : App) (log : List (LogEntry A)) :
    Nat → Nat → A.Machine → Option (Nat × A.Machine)
  | 0, lastApplied, m => some (lastApplied, m)
  | fuel + 1, lastApplied, m =>
    match logLookup log (lastApplied + 1) with
    | none => none
    | some (_, e) => applyCommittedGo A log fuel (lastApplied + 1) (A.applyCmd m e.command).1

/-- `Peer::apply_committed` (peer.rs lines 327-344). -/
def Peer.applyCommitted (p : Peer A) : Option (Peer A) :=
  match applyCommittedGo A p.storage.log (p.commitIndex - p.lastApplied) p.lastApplied p.machine with
  | none => none
  | some (la, m) => some { p with lastApplied := la, machine := m }

/-- Inserting an absent key appends the binding at the end. -/
theorem mapInsert_append (m : List (Nat × α)) (k : Nat) (v : α)
    (h : ∀ e ∈ m, e.1 ≠ k) : mapInsert m k v = m ++ [(k, v)] := by
  induction m with
  | nil => rfl
  | cons e rest ih =>
    simp only [mapInsert]
    rw [if_neg (h e (by simp))]
    simp only [List.cons_append, List.cons.injEq, true_and]
    exact ih (fun x hx => h x (by simp [hx]))

/-- Inserting an element above every member of a sorted set appends it. -/
theorem setInsert_append (s : List Nat) (x : Nat)
    (h : ∀ y ∈ s, y < x) : setInsert s x = s ++ [x] := by
  induction s with
  | nil => rfl
  | cons y rest ih =>
    have hy := h y (by simp)
    simp only [setInsert]
    rw [if_neg (by omega), if_neg (by omega)]
    simp only [List.cons_append, List.cons.injEq, true_and]
    exact ih (fun z hz => h z (by simp [hz]))

/-- Closed form of the AppendEntries fan-out fold: fresh ids are consecutive
from the initial counter, transmits and request records are appended in
cluster order, one per non-self peer. -/
theorem aeFanout_spec (selfId : Nat) (request : AppendEntriesRequest A) :
    ∀ (cl : List Nat) (c0 : Nat) (ts : List (PeerTransmit A))
      (rs : List (Nat × AppendEntriesRequest A)), (∀ e ∈ rs, e.1 < c0) →
      cl.foldl (aeFanoutStep selfId request) (c0, ts, rs) =
        (c0 + (cl.filter (fun q => q ≠ selfId)).length,
          ts ++ transmitsFrom (.appendEntriesRequest request) c0
            (cl.filter (fun q => q ≠ selfId)),
          rs ++ requestsFrom request c0 (cl.filter (fun q => q ≠ selfId))) := by
  intro cl
  induction cl with
  | nil =>
    intro c0 ts rs _
    simp [transmitsFrom, requestsFrom]
  | cons q rest ih =>
    intro c0 ts rs hk
    by_cases hq : q = selfId
    · have hfilter : (q :: rest).filter (fun x => decide (x ≠ selfId)) =
          rest.filter (fun x => decide (x ≠ selfId)) := by
        simp [List.filter_cons, hq]
      rw [hfilter]
      simp only [List.foldl_cons, aeFanoutStep, if_pos hq]
      exact ih c0 ts rs hk
    · have hfilter : (q :: rest).filter (fun x => decide (x ≠ selfId)) =
          q :: rest.filter (fun x => decide (x ≠ selfId)) := by
        simp [List.filter_cons, hq]
      rw [hfilter]
      simp only [List.foldl_cons, aeFanoutStep, if_neg hq]
      have hne : ∀ e ∈ rs, e.1 ≠ c0 := by
        intro e he
        have := hk e he
        omega
      rw [mapInsert_append rs c0 request hne]
      have hk2 : ∀ e ∈ rs ++ [(c0, request)], e.1 < c0 + 1 := by
        intro e he
        rcases List.mem_append.mp he with h | h
        · have := hk e h
          omega
        · simp only [List.mem_singleton] at h
          subst h
          omega
      refine (ih (c0 + 1) _ _ hk2).trans ?_
      simp only [transmitsFrom, requestsFrom, List.append_assoc, List.singleton_append,
        List.length_cons, Prod.mk.injEq]
      exact ⟨by omega, trivial⟩

/-- Closed form of the granted-ids set built by the RequestVote fan-out
fold: its ids are the consecutive fresh ids, one per non-self peer. -/
theorem rvFanout_spec (selfId : Nat) (request : RequestVoteRequest) :
    ∀ (cl : List Nat) (c0 : Nat) (ts : List (PeerTransmit A)) (ids : List Nat),
      (∀ y ∈ ids, y < c0) →
      cl.foldl (rvFanoutStep selfId request) (c0, ts, ids) =
        (c0 + (cl.filter (fun q => q ≠ selfId)).length,
          ts ++ transmitsFrom (A := A) (.requestVoteRequest request) c0
            (cl.filter (fun q => q ≠ selfId)),
          ids ++ idsFrom c0 (cl.filter (fun q => q ≠ selfId))) := by
  intro cl
  induction cl with
  | nil =>
    intro c0 ts ids _
    simp [transmitsFrom, idsFrom]
  | cons q rest ih =>
    intro c0 ts ids hk
    by_cases hq : q = selfId
    · have hfilter : (q :: rest).filter (fun x => decide (x ≠ selfId)) =
          rest.filter (fun x => decide (x ≠ selfId)) := by
        simp [List.filter_cons, hq]
      rw [hfilter]
      simp only [List.foldl_cons, rvFanoutStep, if_pos hq]
      exact ih c0 ts ids hk
    · have hfilter : (q :: rest).filter (fun x => decide (x ≠ selfId)) =
          q :: rest.filter (fun x => decide (x ≠ selfId)) := by
        simp [List.filter_cons, hq]
      rw [hfilter]
      simp only [List.foldl_cons, rvFanoutStep, if_neg hq]
      rw [setInsert_append ids c0 hk]
      have hk2 : ∀ y ∈ ids ++ [c0], y < c0 + 1 := by
        intro y hy
        rcases List.mem_append.mp hy with h | h
        · have := hk y h
          omega
        · simp only [List.mem_singleton] at h
          subst h
          omega
      refine (ih (c0 + 1) _ _ hk2).trans ?_
      simp only [transmitsFrom, idsFrom, List.append_assoc, List.singleton_append,
        List.length_cons, Prod.mk.injEq]
      exact ⟨by omega, trivial⟩

/-- Lookup in a map built over a list of keys. -/
theorem mapGet?_mapSelf (l : List Nat) (f : Nat → α) (k : Nat) (hk : k ∈ l) :
    mapGet? (l.map (fun q => (q, f q))) k = some (f k) := by
  induction l with
  | nil => cases hk
  | cons q rest ih =>
    by_cases hq : q = k
    · subst hq
      simp [mapGet?, List.find?]
    · rcases List.mem_cons.mp hk with h | h
      · exact absurd h.symm hq
      · simp only [List.map_cons, mapGet?, List.find?]
        rw [show (decide ((q, f q).1 = k)) = false by simp [hq]]
        exact ih h

/-- `CandidateState::grant_vote` (role.rs lines 71-77): if the request id
is still outstanding, remove it and count one more granted vote. -/
def CandidateState.grantVote (cs : CandidateState) (requestId : Nat) : CandidateState :=
  if requestId ∈ cs.voteRequestIds then
    ⟨cs.votesGranted + 1, cs.voteRequestIds.erase requestId⟩
  else cs

/-- `RequestVoteReply::receive` (request_vote_reply.rs). `okW` is the
success of the `set_current_term_and_voted_for(reply.term, None)` write in
the higher-term branch, whose failure is only logged (the in-memory view
stays rolled back) while the step-down still happens. The `assert_eq!` on
a granted reply's term is modelled as `none` when violated. -/
def RequestVoteReply.receive (msg : RequestVoteReply) (sendingPeerId requestId : Nat)
    (okW : Bool) (p : Peer A) : Option (Peer A) :=
  if p.currentTerm < msg.term then
    let storage2 :=
      if okW then { p.storage with currentTerm := msg.term, votedFor := none } else p.storage
    some { p with
      storage := storage2
      role := .follower none
      bufferedPeerTransmits := p.bufferedPeerTransmits.filter
        (fun t => match t.message with
          | .requestVoteRequest _ => false
          | _ => true) }
  else
    match p.role with
    | .follower _ => some p
    | .leader _ => some p
    | .candidate cs =>
      if requestId ∈ cs.voteRequestIds then
        match msg.vote with
        | .granted =>
          if msg.term = p.currentTerm then
            let cs2 := cs.grantVote requestId
            let p2 := { p with role := .candidate cs2 }
            if p2.majority ≤ cs2.votesGranted then some p2.becomeLeader else some p2
          else
            none
        | .notGrantedDueToStorageError =>
          let request : RequestVoteRequest :=
            { term := p.currentTerm
              candidateId := p.id
              lastLogIndex := p.storage.lastIndexTerm.1
              lastLogTerm := p.storage.lastIndexTerm.2 }
          some { p with bufferedPeerTransmits := p.bufferedPeerTransmits ++
            [⟨sendingPeerId, requestId, .requestVoteRequest request⟩] }
        | _ => some p
      else
        some p

/-- The `replication_counts` map of `AppendEntriesReply::receive`
(append_entries_reply.rs lines 108-111), iterated in reverse: the distinct
values of `match_index.values()` in descending order, each with its number
of occurrences. -/
def replicationCountsDesc (vals : List Nat) : List (Nat × Nat) :=
  ((vals.toFinset.sort (· ≤ ·)).reverse).map (fun v => (v, vals.count v))

/-- The labelled search loop of `AppendEntriesReply::receive`
(append_entries_reply.rs lines 112-134): walk the replication counts in
descending order accumulating counts; stop at the first value not above the
current commit index; commit the first value whose accumulated count
reaches majority. -/
def commitSearch (majority : Nat) : List (Nat × Nat) → Nat → Nat → Nat
  | [], _, newCommit => newCommit
  | (logIndex, cnt) :: rest, acc, newCommit =>
    if logIndex ≤ newCommit then newCommit
    else if majority ≤ acc + cnt then logIndex
    else commitSearch majority rest (acc + cnt) newCommit

/-- The log index up to which the replied-to request replicated entries:
the index of its last entry, or its `prev_log_index` when it carried none. -/
def AppendEntriesRequest.replicatedIndex (request : AppendEntriesRequest A) : Nat :=
  match request.entries.getLast? with
  | some e => e.index
  | none => request.prevLogIndex

/-- `AppendEntriesReply::receive` (append_entries_reply.rs). `okW` is the
success of the higher-term `set_current_term_and_voted_for` write (failure
is only logged; the step-down of a leader still happens). The
`unimplemented!` snapshot-transfer branches of the failure path are
modelled as `none`. -/
def AppendEntriesReply.receive (msg : AppendEntriesReply) (sendingPeerId requestId : Nat)
    (okW : Bool) (p : Peer A) : Option (Peer A) :=
  let majority := p.majority
  let currentTerm := p.storage.currentTerm
  if currentTerm < msg.term then
    let storage2 :=
      if okW then { p.storage with currentTerm := msg.term, votedFor := none } else p.storage
    let role2 : Role A :=
      match p.role with
      | .leader _ => .follower none
      | r => r
    some { p with storage := storage2, role := role2 }
  else if msg.term < currentTerm then
    some p
  else
    match p.role with
    | .leader ls =>
      match mapGet? ls.appendEntriesRequests requestId with
      | none => some p
      | some request =>
        let ls := { ls with
          appendEntriesRequests := mapRemove ls.appendEntriesRequests requestId }
        if msg.success then
          let ls := { ls with
            nextIndex := mapAdjust ls.nextIndex sendingPeerId (request.replicatedIndex + 1)
            matchIndex := mapAdjust ls.matchIndex sendingPeerId request.replicatedIndex }
          let newCommit :=
            commitSearch majority (replicationCountsDesc (mapValues ls.matchIndex)) 0
              p.commitIndex
          some { p with role := .leader ls, commitIndex := newCommit }
        else
          match mapGet? ls.nextIndex sendingPeerId with
          | none => some { p with role := .leader ls }
          | some ni =>
            if p.storage.snapshot.lastIncludedIndex + 1 < ni then
              let ni2 := ni - 1
              let ls := { ls with nextIndex := mapAdjust ls.nextIndex sendingPeerId ni2 }
              match logLookup p.storage.log ni2 with
              | none => none
              | some (pos, e) =>
                let nextTerm := if ni2 = 0 then 0 else e.term
                let request2 : AppendEntriesRequest A :=
                  { term := p.storage.currentTerm
                    leaderId := p.id
                    prevLogIndex := ni2
                    prevLogTerm := nextTerm
                    entries := p.storage.log.drop pos
                    leaderCommit := p.commitIndex }
                some { p with
                  role := .leader { ls with
                    appendEntriesRequests :=
                      mapInsert ls.appendEntriesRequests p.requestCounter request2 }
                  requestCounter := p.requestCounter + 1
                  bufferedPeerTransmits := p.bufferedPeerTransmits ++
                    [⟨sendingPeerId, p.requestCounter, .appendEntriesRequest request2⟩] }
            else
              none
    | _ => some p

/-- Number of peers whose recorded match index is at least `v`. -/
def countGE (vals : List Nat) (v : Nat) : Nat :=
  vals.countP (fun w => decide (v ≤ w))

/-- The commit advancement described by the spec, stated in its words: the
largest value `V` occurring in `match_index.values()` such that the number
of peers whose match index is at least `V` reaches majority and
`V > commit_index`; the commit index is unchanged when no such `V` exists. -/
def specNewCommit (vals : List Nat) (commit majority : Nat) : Nat :=
  (vals.filter fun v => decide (commit < v ∧ majority ≤ countGE vals v)).foldl Nat.max commit

/-- A filter over a list none of whose members satisfy the predicate is
empty. -/
theorem filter_eq_nil_of_false (l : List α) (f : α → Bool)
    (h : ∀ x ∈ l, f x = false) : l.filter f = [] := by
  induction l with
  | nil => rfl
  | cons x rest ih =>
    simp only [List.filter_cons, h x (by simp)]
    exact ih (fun y hy => h y (by simp [hy]))

/-- Folding `max` from a value dominating the whole list returns it. -/
theorem foldl_max_of_le (l : List Nat) :
    ∀ m : Nat, (∀ y ∈ l, y ≤ m) → l.foldl Nat.max m = m := by
  induction l with
  | nil => intro m _; rfl
  | cons y rest ih =>
    intro m hall
    have h1 : Nat.max m y = m := Nat.max_eq_left (hall y (by simp))
    rw [List.foldl_cons, h1]
    exact ih m (fun z hz => hall z (by simp [hz]))

/-- Folding `max` over a list that contains its bound computes the bound. -/
theorem foldl_max_eq_of_mem (l : List Nat) (m : Nat) :
    ∀ a : Nat, m ∈ l → a ≤ m → (∀ x ∈ l, x ≤ m) → l.foldl Nat.max a = m := by
  induction l with
  | nil => intro a hm; cases hm
  | cons x rest ih =>
    intro a hm ha hall
    rcases List.mem_cons.mp hm with hx | hx
    · subst hx
      have h1 : Nat.max a m = m := Nat.max_eq_right ha
      rw [List.foldl_cons, h1]
      exact foldl_max_of_le rest m (fun y hy => hall y (by simp [hy]))
    · have hxm := hall x (by simp)
      exact ih (Nat.max a x) hx (Nat.max_le.mpr ⟨ha, hxm⟩)
        (fun y hy => hall y (by simp [hy]))

/-- A count over a list none of whose members satisfy the predicate is 0. -/
theorem countP_eq_zero_of_false (l : List α) (f : α → Bool)
    (h : ∀ x ∈ l, f x = false) : l.countP f = 0 := by
  induction l with
  | nil => rfl
  | cons x rest ih =>
    rw [List.countP_cons, h x (by simp), ih (fun y hy => h y (by simp [hy]))]
    rfl

/-- Every member of a list is at most its `foldr max 0`. -/
theorem le_foldr_max (l : List Nat) : ∀ v ∈ l, v ≤ l.foldr Nat.max 0 := by
  induction l with
  | nil => intro v hv; cases hv
  | cons x rest ih =>
    intro v hv
    rcases List.mem_cons.mp hv with he | he
    · subst he
      exact Nat.le_max_left v (rest.foldr Nat.max 0)
    · exact le_trans (ih v he) (Nat.le_max_right x (rest.foldr Nat.max 0))

/-- Splitting the at-least-`k` count at a bound `b > k` when every value of
the list lying in `[k, b)` equals `k`. -/
theorem countGE_split (vals : List Nat) (k b : Nat) (hkb : k < b)
    (hmid : ∀ v ∈ vals, k ≤ v → v < b → v = k) :
    countGE vals k = (vals.countP fun w => decide (b ≤ w)) + vals.count k := by
  induction vals with
  | nil => rfl
  | cons v rest ih =>
    have ih2 := ih (fun x hx h1 h2 => hmid x (by simp [hx]) h1 h2)
    simp only [countGE] at ih2 ⊢
    by_cases h1 : k ≤ v
    · by_cases h2 : b ≤ v
      · have hkv : ¬ v = k := by omega
        simp [List.countP_cons, List.count_cons, h1, h2, hkv]
        omega
      · have hvk := hmid v (by simp) h1 (by omega)
        subst hvk
        simp [List.countP_cons, List.count_cons, h1, h2]
        omega
    · have h2 : ¬ b ≤ v := by omega
      have hkv : ¬ v = k := by omega
      simp [List.countP_cons, List.count_cons, h1, h2, hkv]
      omega

/-- The commit-search loop over strictly descending keys covering every
value of `vals` below the bound `b`, started with the count of values at
least `b` accumulated, computes the spec's largest qualifying value. -/
theorem commitSearch_aux (majority : Nat) (vals : List Nat) :
    ∀ (keys : List Nat) (b commit : Nat),
      List.Sorted (· > ·) keys →
      (∀ k ∈ keys, k ∈ vals) →
      (∀ k ∈ keys, k < b) →
      (∀ v ∈ vals, v < b → v ∈ keys) →
      commitSearch majority (keys.map fun k => (k, vals.count k))
          (vals.countP fun w => decide (b ≤ w)) commit =
        (vals.filter fun v =>
          decide (v < b ∧ commit < v ∧ majority ≤ countGE vals v)).foldl Nat.max commit := by
  intro keys
  induction keys with
  | nil =>
    intro b commit _ _ _ hcov
    rw [filter_eq_nil_of_false]
    · rfl
    · intro v hv
      simp only [decide_eq_false_iff_not]
      rintro ⟨h1, -, -⟩
      exact absurd (hcov v hv h1) (List.not_mem_nil v)
  | cons k ks ih =>
    intro b commit hsort hmem hb hcov
    have hks : ∀ j ∈ ks, j < k := (List.sorted_cons.mp hsort).1
    have hsort2 := (List.sorted_cons.mp hsort).2
    simp only [List.map_cons, commitSearch]
    by_cases hstop : k ≤ commit
    · rw [if_pos hstop, filter_eq_nil_of_false]
      · rfl
      · intro v hv
        simp only [decide_eq_false_iff_not]
        rintro ⟨h1, h2, -⟩
        rcases List.mem_cons.mp (hcov v hv h1) with he | he
        · omega
        · have := hks v he
          omega
    · rw [if_neg hstop]
      have hkb := hb k (by simp)
      have hsplit : countGE vals k =
          (vals.countP fun w => decide (b ≤ w)) + vals.count k := by
        apply countGE_split vals k b hkb
        intro v hv h1 h2
        rcases List.mem_cons.mp (hcov v hv h2) with he | he
        · exact he
        · have := hks v he
          omega
      by_cases hmaj : majority ≤ (vals.countP fun w => decide (b ≤ w)) + vals.count k
      · rw [if_pos hmaj]
        symm
        apply foldl_max_eq_of_mem
        · apply List.mem_filter.mpr
          refine ⟨hmem k (by simp), ?_⟩
          simp only [decide_eq_true_eq]
          exact ⟨hkb, by omega, by rw [hsplit]; exact hmaj⟩
        · omega
        · intro x hx
          have hx2 := List.mem_filter.mp hx
          have hx3 := hx2.2
          simp only [decide_eq_true_eq] at hx3
          rcases List.mem_cons.mp (hcov x hx2.1 hx3.1) with he | he
          · omega
          · have := hks x he
            omega
      · rw [if_neg hmaj, ← hsplit]
        have hstep := ih k commit hsort2 (fun j hj => hmem j (by simp [hj])) hks
          (fun v hv hvk => by
            rcases List.mem_cons.mp (hcov v hv (by omega)) with he | he
            · omega
            · exact he)
        rw [show (vals.countP fun w => decide (k ≤ w)) = countGE vals k from rfl] at hstep
        rw [hstep]
        congr 1
        apply List.filter_congr
        intro v hv
        have hiff : (v < k ∧ commit < v ∧ majority ≤ countGE vals v) ↔
            (v < b ∧ commit < v ∧ majority ≤ countGE vals v) := by
          constructor
          · rintro ⟨h1, h2, h3⟩
            exact ⟨by omega, h2, h3⟩
          · rintro ⟨h1, h2, h3⟩
            refine ⟨?_, h2, h3⟩
            rcases List.mem_cons.mp (hcov v hv h1) with he | he
            · subst he
              rw [hsplit] at h3
              omega
            · exact hks v he
        exact decide_eq_decide.mpr hiff

/-- The labelled commit-search loop of `AppendEntriesReply::receive`
computes exactly the spec's commit advancement: the largest value occurring
among the match indices that is replicated on at least a majority and
exceeds the current commit index, or the current commit index when none
exists. -/
theorem commitSearch_eq_specNewCommit (majority : Nat) (vals : List Nat) (commit : Nat) :
    commitSearch majority (replicationCountsDesc vals) 0 commit =
      specNewCommit vals commit majority := by
  have hb : ∀ v ∈ vals, v < vals.foldr Nat.max 0 + 1 := by
    intro v hv
    have := le_foldr_max vals v hv
    omega
  have hmemkeys : ∀ k, k ∈ (vals.toFinset.sort (· ≤ ·)).reverse ↔ k ∈ vals := by
    intro k
    rw [List.mem_reverse, Finset.mem_sort, List.mem_toFinset]
  have hsorted : List.Sorted (· > ·) ((vals.toFinset.sort (· ≤ ·)).reverse) := by
    have := Finset.sort_sorted_lt vals.toFinset
    unfold List.Sorted at this ⊢
    rw [List.pairwise_reverse]
    exact this
  have hacc : (vals.countP fun w => decide (vals.foldr Nat.max 0 + 1 ≤ w)) = 0 := by
    apply countP_eq_zero_of_false
    intro x hx
    simp only [decide_eq_false_iff_not]
    have := hb x hx
    omega
  have haux := commitSearch_aux majority vals ((vals.toFinset.sort (· ≤ ·)).reverse)
    (vals.foldr Nat.max 0 + 1) commit hsorted
    (fun k hk => (hmemkeys k).mp hk)
    (fun k hk => hb k ((hmemkeys k).mp hk))
    (fun v hv _ => (hmemkeys v).mpr hv)
  rw [hacc] at haux
  rw [show replicationCountsDesc vals =
    ((vals.toFinset.sort (· ≤ ·)).reverse).map (fun v => (v, vals.count v)) from rfl]
  rw [haux]
  unfold specNewCommit
  congr 1
  apply List.filter_congr
  intro v hv
  have hiff : (v < vals.foldr Nat.max 0 + 1 ∧ commit < v ∧ majority ≤ countGE vals v) ↔
      (commit < v ∧ majority ≤ countGE vals v) := by
    constructor
    · rintro ⟨-, h2, h3⟩
      exact ⟨h2, h3⟩
    · rintro ⟨h2, h3⟩
      exact ⟨hb v hv, h2, h3⟩
  exact decide_eq_decide.mpr hiff

/-- Concrete application instance used to evaluate the embedding on closed
inputs: commands, queries and results are naturals, the machine is the list
of applied commands, and the no-op command is `0`. -/
@[reducible] def TestApp : App :=
  { Command := Nat
    CommandResult := Nat
    Query := Nat
    QueryResult := Nat
    Machine := List Nat
    StorageError := Nat
    noOp := 0
    machineDefault := []
    applyCmd := fun m c => (c :: m, 0)
    runQuery := fun m _ => m.length }

/-- The candidate's `(last_log_term, last_log_index)` is at least as up to
date as a voter whose last entry (or snapshot) has `(index, term) = last`:
the lexicographic comparison of §4.4.2 step 5 of the spec. -/
def upToDateGE (candTerm candIdx : Nat) (last : Nat × Nat) : Prop :=
  last.2 < candTerm ∨ (candTerm = last.2 ∧ last.1 ≤ candIdx)

/-- Follower state for the C1 evaluation: peer 4 in a five-peer cluster in
term 1 with log `[(1,1,no-op), (2,1,cmd 7)]` and commit index 1, as reached
by accepting the leader's no-op append, a first command append, and then a
heartbeat carrying `leader_commit = 1`, while a second command append sent
earlier with `leader_commit = 0` is still buffered in the network. -/
def C1peer : Peer TestApp :=
  { id := 4
    cluster := [1, 2, 3, 4, 5]
    consistency := .strong
    role := .follower (some 1)
    machine := []
    storage :=
      { currentTerm := 1
        votedFor := none
        log := [⟨1, 1, 0⟩, ⟨2, 1, 7⟩]
        snapshot := Snapshot.default TestApp }
    commitIndex := 1
    lastApplied := 0
    requestCounter := 0
    bufferedPeerTransmits := []
    bufferedClientTransmits := [] }

/-- The stale append-entries request for the C1 evaluation: sent by leader
1 before its commit index advanced, carrying `leader_commit = 0` and the
entry at index 3. -/
def C1msg : AppendEntriesRequest TestApp :=
  { term := 1
    leaderId := 1
    prevLogIndex := 2
    prevLogTerm := 1
    entries := [⟨3, 1, 9⟩]
    leaderCommit := 0 }

/-- C1: the claim states that `commit_index` never decreases, in particular
across any accepted AppendEntries, under every delivery order the simulator
allows. The handler assigns `commit_index := msg.leader_commit`
unconditionally on the success path, so a reordered stale accepted request
decreases it: the follower `C1peer` at commit index 1 accepts `C1msg`
(success reply) and its commit index drops to 0. -/
theorem C1_commit_index_decreases :
    ((C1msg.receive 1 C1peer).map fun r => (r.1.success, r.2.commitIndex)) =
        some (true, 0) ∧
      C1peer.commitIndex = 1 := by
  constructor <;> rfl

/-- Voter state for the C2 counterexample: in term 1 it has already voted
for peer 2 and since accepted the leader's entry `(1,1,no-op)`, so its
`(last_log_term, last_log_index)` is `(1, 1)`. -/
def C2voter : Peer TestApp :=
  { id := 3
    cluster := [1, 2, 3]
    consistency := .strong
    role := .follower none
    machine := []
    storage :=
      { currentTerm := 1
        votedFor := some 2
        log := [⟨1, 1, 0⟩]
        snapshot := Snapshot.default TestApp }
    commitIndex := 0
    lastApplied := 0
    requestCounter := 0
    bufferedPeerTransmits := []
    bufferedClientTransmits := [] }

/-- The repeated request-vote message for the C2 counterexample: same term,
same candidate the voter already voted for, still carrying the candidate's
old `(last_log_term, last_log_index) = (0, 0)`. -/
def C2msg : RequestVoteRequest :=
  { term := 1
    candidateId := 2
    lastLogIndex := 0
    lastLogTerm := 0 }

/-- C2 counterexample: a repeated RequestVote in the same term from the
candidate the peer has already voted for is answered `Granted` without
re-running the up-to-date check, even though the candidate's
`(last_log_term, last_log_index) = (0, 0)` is lexicographically below the
voter's `(1, 1)` at the moment of the grant; the voter's state is left
unchanged. -/
theorem C2_repeated_vote_grant_not_up_to_date :
    (C2msg.receive 2 true true C2voter).1.vote = Vote.granted ∧
      ¬ upToDateGE C2msg.lastLogTerm C2msg.lastLogIndex C2voter.storage.lastIndexTerm ∧
      (C2msg.receive 2 true true C2voter).2 = C2voter := by
  refine ⟨rfl, ?_, rfl⟩
  intro h
  rcases h with h | ⟨h, h2⟩
  · simp [C2voter, C2msg, Storage.lastIndexTerm] at h
  · simp [C2voter, C2msg, Storage.lastIndexTerm] at h2

/-- C2 (amended): whenever a peer replies `Granted` to a RequestVote,
either the candidate's `(last_log_term, last_log_index)` carried in the
request is lexicographically at least the voter's last entry (or snapshot)
pair at the moment of the grant, or the request is a repeated RequestVote
in the same term from the candidate the peer has already voted for, which
is granted without re-running the up-to-date check. -/
theorem C2_granted_up_to_date_or_repeat (msg : RequestVoteRequest) (sendingPeerId : Nat)
    (ok1 ok2 : Bool) (p : Peer A)
    (h : (msg.receive sendingPeerId ok1 ok2 p).1.vote = Vote.granted) :
    upToDateGE msg.lastLogTerm msg.lastLogIndex p.storage.lastIndexTerm ∨
      (msg.term = p.currentTerm ∧ p.votedFor = some sendingPeerId) := by
  have check : ∀ (replyTerm : Nat) (q : Peer A),
      (voteUpToDateCheck msg sendingPeerId ok2 replyTerm q).1.vote = Vote.granted →
        upToDateGE msg.lastLogTerm msg.lastLogIndex q.storage.lastIndexTerm ∨
          q.votedFor = some sendingPeerId := by
    intro replyTerm q hq
    unfold voteUpToDateCheck at hq
    rcases hv : q.votedFor with _ | votedPeerId
    · simp only [hv] at hq
      by_cases hup : q.storage.lastIndexTerm.2 < msg.lastLogTerm ∨
          (msg.lastLogTerm = q.storage.lastIndexTerm.2 ∧
            q.storage.lastIndexTerm.1 ≤ msg.lastLogIndex)
      · exact Or.inl hup
      · simp only [if_neg hup] at hq
        exact absurd hq (by simp)
    · simp only [hv] at hq
      by_cases hne : votedPeerId ≠ sendingPeerId
      · simp only [if_pos hne] at hq
        exact absurd hq (by simp)
      · push_neg at hne
        subst hne
        exact Or.inr rfl
  simp only [RequestVoteRequest.receive] at h
  by_cases hlt : msg.term < p.currentTerm
  · simp only [if_pos hlt] at h
    exact absurd h (by simp)
  · simp only [if_neg hlt] at h
    by_cases heq : msg.term = p.currentTerm ∧ (p.votedFor).isSome
    · simp only [if_pos heq] at h
      rcases hv : p.votedFor with _ | votedPeerId
      · rw [hv] at heq
        simp at heq
      · simp only [hv] at h
        by_cases hne : votedPeerId ≠ sendingPeerId
        · simp only [if_pos hne] at h
          exact absurd h (by simp)
        · simp only [if_neg hne] at h
          push_neg at hne
          subst hne
          exact Or.inr ⟨heq.1, rfl⟩
    · simp only [if_neg heq] at h
      by_cases hb : p.currentTerm < msg.term
      · simp only [if_pos hb] at h
        by_cases hok : ok1 = false
        · simp only [if_pos hok] at h
          exact absurd h (by simp)
        · simp only [if_neg hok] at h
          rcases check _ _ h with hup | hvoted
          · exact Or.inl hup
          · exact absurd hvoted (by simp [Peer.votedFor])
      · simp only [if_neg hb] at h
        rcases check _ _ h with hup | hvoted
        · exact Or.inl hup
        · exact Or.inr ⟨by omega, hvoted⟩

/-- C5: on becoming leader, with `(prev_log_index, prev_log_term)` taken
from the last log entry or else from the snapshot, the peer appends exactly
one no-op entry at index `prev_log_index + 1` in the current term (the only
entry it appends), initializes `next_index[q] = prev_log_index + 2` for
every other peer, `match_index[self] = prev_log_index + 1` and
`match_index[other] = snapshot.last_included_index`, and enqueues one
AppendEntries carrying that no-op (with consecutive fresh request ids) to
every other peer. `become_leader` is the single function invoked both on
reaching majority votes (request_vote_reply.rs line 124) and on an election
timeout in a single-peer cluster (peer.rs line 158). -/
theorem C5_become_leader_effects (p : Peer A) :
    ∃ ls : LeaderState A,
      (p.becomeLeader).role = .leader ls ∧
      (p.becomeLeader).storage.log =
        p.storage.log ++ [⟨p.storage.lastIndexTerm.1 + 1, p.currentTerm, A.noOp⟩] ∧
      (∀ q ∈ p.cluster, q ≠ p.id →
        mapGet? ls.nextIndex q = some (p.storage.lastIndexTerm.1 + 2)) ∧
      (p.id ∈ p.cluster →
        mapGet? ls.matchIndex p.id = some (p.storage.lastIndexTerm.1 + 1)) ∧
      (∀ q ∈ p.cluster, q ≠ p.id →
        mapGet? ls.matchIndex q = some p.storage.snapshot.lastIncludedIndex) ∧
      (p.becomeLeader).bufferedPeerTransmits =
        p.bufferedPeerTransmits ++
          transmitsFrom
            (.appendEntriesRequest
              { term := p.currentTerm
                leaderId := p.id
                prevLogIndex := p.storage.lastIndexTerm.1
                prevLogTerm := p.storage.lastIndexTerm.2
                entries := [⟨p.storage.lastIndexTerm.1 + 1, p.currentTerm, A.noOp⟩]
                leaderCommit := p.commitIndex })
            p.requestCounter (p.cluster.filter (fun q => q ≠ p.id)) := by
  simp only [Peer.becomeLeader, Peer.currentTerm]
  rw [aeFanout_spec p.id _ p.cluster p.requestCounter [] [] (by intro e he; cases he)]
  simp only [List.nil_append]
  refine ⟨_, rfl, trivial, ?_, ?_, ?_, trivial⟩
  · intro q hq hne
    have hmem : q ∈ p.cluster.filter (fun x => decide (x ≠ p.id)) := by
      simp only [List.mem_filter]
      exact ⟨hq, by simp [hne]⟩
    exact mapGet?_mapSelf _ (fun _ => p.storage.lastIndexTerm.1 + 1 + 1) q hmem
  · intro hself
    have h2 := mapGet?_mapSelf p.cluster
      (fun x => if x = p.id then p.storage.lastIndexTerm.1 + 1
        else p.storage.snapshot.lastIncludedIndex) p.id hself
    simp only [if_pos rfl] at h2
    exact h2
  · intro q hq hne
    have h2 := mapGet?_mapSelf p.cluster
      (fun x => if x = p.id then p.storage.lastIndexTerm.1 + 1
        else p.storage.snapshot.lastIncludedIndex) q hq
    simp only [if_neg hne] at h2
    exact h2

/-- C7: if the persistent write of `(current_term + 1, voted_for = self)`
at an election timeout fails, the operation aborts with no state change at
all: the resulting peer equals the peer before the timeout (role, term,
voted_for, log, snapshot, commit/applied indices, machine, both buffered
transmit queues), and in particular no RequestVote is enqueued. -/
theorem C7_election_timeout_write_failure_is_noop (p : Peer A) :
    Peer.triggerElectionTimeout false p = p :=
  rfl

/-- C10: triggering a heartbeat timeout on a peer that is not a leader (a
follower or a candidate) only logs a warning: the peer, including its term,
voted_for, log, snapshot, commit/applied indices, role, machine, request
counter and both buffered transmit queues, is returned unchanged. -/
theorem C10_heartbeat_noop_for_non_leader (p : Peer A)
    (h : ∀ ls : LeaderState A, p.role ≠ .leader ls) :
    p.triggerHeartbeatTimeout = p := by
  unfold Peer.triggerHeartbeatTimeout
  rcases hr : p.role with l | cs | ls
  · rfl
  · rfl
  · exact absurd hr (h ls)

/-- Fresh storage used by concrete witnesses: term 0, no vote, empty log,
default snapshot. -/
def freshStorage : Storage TestApp :=
  { currentTerm := 0
    votedFor := none
    log := []
    snapshot := Snapshot.default TestApp }

/-- Witness peer for C10: a freshly created follower. -/
def C10peer : Peer TestApp :=
  Peer.new TestApp 1 [1, 2, 3] .strong freshStorage

/-- Witness for C10 at a concrete follower. -/
theorem C10_heartbeat_noop_witness : C10peer.triggerHeartbeatTimeout = C10peer :=
  C10_heartbeat_noop_for_non_leader C10peer (fun ls h => by cases h)

/-- Witness voter for C2: a fresh peer that receives a first RequestVote. -/
def C2wVoter : Peer TestApp :=
  Peer.new TestApp 1 [1, 2] .strong freshStorage

/-- Witness message for C2: candidate 2 requesting a vote for term 1. -/
def C2wMsg : RequestVoteRequest :=
  { term := 1, candidateId := 2, lastLogIndex := 0, lastLogTerm := 0 }

/-- Witness for C2 at a concrete granted vote. -/
theorem C2_granted_witness :
    upToDateGE C2wMsg.lastLogTerm C2wMsg.lastLogIndex C2wVoter.storage.lastIndexTerm ∨
      (C2wMsg.term = C2wVoter.currentTerm ∧ C2wVoter.votedFor = some 2) :=
  C2_granted_up_to_date_or_repeat C2wMsg 2 true true C2wVoter (by rfl)

/-- C3: on a successful AppendEntriesReply in the leader's current term
whose request id matches a recorded outstanding request, the leader sets
`match_index[sender]` to the replicated index of that request (its last
entry's index, or its `prev_log_index` when it carried no entries),
`next_index[sender]` to that value plus one, removes the recorded request,
and sets `commit_index` to the largest value `V` occurring in
`match_index.values()` with at least `majority` peers at `match_index ≥ V`
and `V > commit_index`, leaving it unchanged when no such `V` exists
(`specNewCommit` states that rule in the spec's words); everything else in
the peer is untouched. -/
theorem C3_append_entries_reply_success_updates (msg : AppendEntriesReply)
    (sendingPeerId requestId : Nat) (okW : Bool) (p : Peer A) (ls : LeaderState A)
    (request : AppendEntriesRequest A)
    (hrole : p.role = .leader ls)
    (hterm : msg.term = p.storage.currentTerm)
    (hsucc : msg.success = true)
    (hreq : mapGet? ls.appendEntriesRequests requestId = some request) :
    msg.receive sendingPeerId requestId okW p =
      some { p with
        role := .leader
          { nextIndex := mapAdjust ls.nextIndex sendingPeerId (request.replicatedIndex + 1)
            matchIndex := mapAdjust ls.matchIndex sendingPeerId request.replicatedIndex
            appendEntriesRequests := mapRemove ls.appendEntriesRequests requestId }
        commitIndex :=
          specNewCommit
            (mapValues (mapAdjust ls.matchIndex sendingPeerId request.replicatedIndex))
            p.commitIndex p.majority } := by
  have h1 : ¬ p.storage.currentTerm < msg.term := by omega
  have h2 : ¬ msg.term < p.storage.currentTerm := by omega
  simp only [AppendEntriesReply.receive, if_neg h1, if_neg h2, hrole, hreq, hsucc, if_true]
  rw [commitSearch_eq_specNewCommit]

/-- Witness recorded request for C3: the no-op append at index 1. -/
def C3wRequest : AppendEntriesRequest TestApp :=
  { term := 1
    leaderId := 1
    prevLogIndex := 0
    prevLogTerm := 0
    entries := [⟨1, 1, 0⟩]
    leaderCommit := 0 }

/-- Witness leader state for C3. -/
def C3wLS : LeaderState TestApp :=
  { nextIndex := [(2, 2), (3, 2)]
    matchIndex := [(1, 1), (2, 0), (3, 0)]
    appendEntriesRequests := [(5, C3wRequest)] }

/-- Witness leader peer for C3: leader of a three-peer cluster in term 1
with the no-op appended and request 5 outstanding towards peer 2. -/
def C3wPeer : Peer TestApp :=
  { id := 1
    cluster := [1, 2, 3]
    consistency := .strong
    role := .leader C3wLS
    machine := []
    storage :=
      { currentTerm := 1
        votedFor := some 1
        log := [⟨1, 1, 0⟩]
        snapshot := Snapshot.default TestApp }
    commitIndex := 0
    lastApplied := 0
    requestCounter := 6
    bufferedPeerTransmits := []
    bufferedClientTransmits := [] }

/-- Witness for C3 at a concrete successful reply: peer 2 acknowledges the
no-op append, match/next indices move to 1/2, and the commit index becomes
1 (the no-op is now on a majority). -/
theorem C3_success_witness :
    AppendEntriesReply.receive ⟨1, true⟩ 2 5 true C3wPeer =
      some { C3wPeer with
        role := .leader
          { nextIndex := mapAdjust C3wLS.nextIndex 2 (C3wRequest.replicatedIndex + 1)
            matchIndex := mapAdjust C3wLS.matchIndex 2 C3wRequest.replicatedIndex
            appendEntriesRequests := mapRemove C3wLS.appendEntriesRequests 5 }
        commitIndex :=
          specNewCommit (mapValues (mapAdjust C3wLS.matchIndex 2 C3wRequest.replicatedIndex))
            C3wPeer.commitIndex C3wPeer.majority } :=
  C3_append_entries_reply_success_updates ⟨1, true⟩ 2 5 true C3wPeer C3wLS C3wRequest
    rfl rfl rfl rfl

/-- `CommandRequest::receive` (command_request.rs): non-leaders redirect
the client; the leader appends the command at the next index in the
current term (`appendErr` is the outcome of that persistent append; on
failure the client gets the storage error and the in-memory view stays
rolled back) and fans out a single-entry AppendEntries to every other
peer, recording each request; no reply is produced on the success path. -/
def CommandRequest.receive (msg : CommandRequest A) (appendErr : Option A.StorageError)
    (p : Peer A) : Option (CommandReply A) × Peer A :=
  match p.role with
  | .candidate _ => (some ⟨.error .leaderUnknown⟩, p)
  | .follower (some leaderId) => (some ⟨.error (.leaderChanged leaderId)⟩, p)
  | .follower none => (some ⟨.error .leaderUnknown⟩, p)
  | .leader ls =>
    let prev := p.storage.lastIndexTerm
    let logEntry : LogEntry A := ⟨prev.1 + 1, p.storage.currentTerm, msg.command⟩
    match appendErr with
    | some e => (some ⟨.error (.storageError e)⟩, p)
    | none =>
      let p := { p with storage := { p.storage with log := p.storage.log ++ [logEntry] } }
      let request : AppendEntriesRequest A :=
        { term := p.storage.currentTerm
          leaderId := p.id
          prevLogIndex := prev.1
          prevLogTerm := prev.2
          entries := [logEntry]
          leaderCommit := p.commitIndex }
      let fin := p.cluster.foldl (aeFanoutStep p.id request)
        (p.requestCounter, [], ls.appendEntriesRequests)
      (none,
        { p with
          role := .leader { ls with appendEntriesRequests := fin.2.2 }
          requestCounter := fin.1
          bufferedPeerTransmits := p.bufferedPeerTransmits ++ fin.2.1 })

/-- `QueryRequest::receive` (query_request.rs): under eventual consistency
first drain `apply_committed` when behind (its `unreachable!` is `none`),
then answer from the machine; under strong consistency non-leaders
redirect, and the leader path is a TODO in the source producing no reply. -/
def QueryRequest.receive (msg : QueryRequest A) (p : Peer A) :
    Option (Option (QueryReply A) × Peer A) :=
  match p.consistency with
  | .eventual =>
    let step1 : Option (Peer A) :=
      if p.lastApplied < p.commitIndex then p.applyCommitted else some p
    match step1 with
    | none => none
    | some p => some (some ⟨.ok (A.runQuery p.machine msg.query)⟩, p)
  | .strong =>
    match p.role with
    | .leader _ => some (none, p)
    | .candidate _ => some (some ⟨.error .leaderUnknown⟩, p)
    | .follower (some leaderId) => some (some ⟨.error (.leaderChanged leaderId)⟩, p)
    | .follower none => some (some ⟨.error .leaderUnknown⟩, p)

/-- `Peer::receive_peer_message` (peer.rs lines 249-282): dispatch on the
message variant; request handlers produce a reply transmit back to the
sender under the incoming request id. `ok1`/`ok2` are the storage-write
oracles of the invoked handler. -/
def Peer.receivePeerMessage (sendingPeerId requestId : Nat) (msg : PeerMessage A)
    (ok1 ok2 : Bool) (p : Peer A) : Option (Peer A) :=
  match msg with
  | .requestVoteRequest r =>
    let res := r.receive sendingPeerId ok1 ok2 p
    some { res.2 with
      bufferedPeerTransmits := res.2.bufferedPeerTransmits ++
        [⟨sendingPeerId, requestId, .requestVoteReply res.1⟩] }
  | .requestVoteReply r => r.receive sendingPeerId requestId ok1 p
  | .appendEntriesRequest r =>
    match r.receive sendingPeerId p with
    | none => none
    | some (reply, p2) =>
      some { p2 with
        bufferedPeerTransmits := p2.bufferedPeerTransmits ++
          [⟨sendingPeerId, requestId, .appendEntriesReply reply⟩] }
  | .appendEntriesReply r => r.receive sendingPeerId requestId ok1 p

/-- `Peer::receive_client_message` (peer.rs lines 285-324): replies from a
client are a protocol violation and only logged; requests are handled and
any produced reply is enqueued as a client transmit. -/
def Peer.receiveClientMessage (clientId requestId : Nat) (msg : ClientMessage A)
    (appendErr : Option A.StorageError) (p : Peer A) : Option (Peer A) :=
  match msg with
  | .queryReply _ => some p
  | .commandReply _ => some p
  | .queryRequest r =>
    match r.receive p with
    | none => none
    | some (some reply, p2) =>
      some { p2 with
        bufferedClientTransmits := p2.bufferedClientTransmits ++
          [⟨clientId, p2.id, requestId, .queryReply reply⟩] }
    | some (none, p2) => some p2
  | .commandRequest r =>
    let res := r.receive appendErr p
    match res.1 with
    | some reply =>
      some { res.2 with
        bufferedClientTransmits := res.2.bufferedClientTransmits ++
          [⟨clientId, res.2.id, requestId, .commandReply reply⟩] }
    | none => some res.2

/-- `Client` (client.rs): id, cluster, cached leader, request counter,
pending and result tables, and the outbound transmit queue. The random
number generator is modelled by the choice function passed to
`Client.command`/`Client.query`. -/
structure Client (A : App) where
  id : Nat
  cluster : List Nat
  leader : Option Nat
  requestCounter : Nat
  commands : List (Nat × A.Command)
  commandResults : List (Nat × Except (ClientError A) A.CommandResult)
  queries : List (Nat × A.Query)
  queryResults : List (Nat × Except (ClientError A) A.QueryResult)
  bufferedClientTransmits : List (ClientTransmit A)

/-- `Client::new`. -/
def Client.new (A : App) (id : Nat) (cluster : List Nat) : Client A :=
  { id := id
    cluster := cluster
    leader := none
    requestCounter := 0
    commands := []
    commandResults := []
    queries := []
    queryResults := []
    bufferedClientTransmits := [] }

/-- `Client::command` (client.rs lines 56-119): allot a fresh request id,
pick the target peer (explicit override, else cached leader, else
`chooseFn` standing for the uniformly random pick from the cluster, which
yields `none` exactly on an empty cluster), store the pending command and
enqueue a CommandRequest; with no target the call fails with
`EmptyCluster`. -/
def Client.command (chooseFn : List Nat → Option Nat) (cmd : A.Command)
    (peerIdOverride : Option Nat) (cl : Client A) :
    Except (ClientError A) Nat × Client A :=
  let requestId := cl.requestCounter
  let cl := { cl with requestCounter := cl.requestCounter + 1 }
  let target : Option Nat :=
    match peerIdOverride with
    | some pid => some pid
    | none =>
      match cl.leader with
      | some leaderId => some leaderId
      | none => chooseFn cl.cluster
  match target with
  | none => (.error .emptyCluster, cl)
  | some targetPeerId =>
    let cl := { cl with commands := mapInsert cl.commands requestId cmd }
    (.ok requestId,
      { cl with
        bufferedClientTransmits := cl.bufferedClientTransmits ++
          [⟨cl.id, targetPeerId, requestId, .commandRequest ⟨cmd⟩⟩] })

/-- `Client::query` (client.rs lines 122-185): identical target selection
for queries. -/
def Client.query (chooseFn : List Nat → Option Nat) (q : A.Query)
    (peerIdOverride : Option Nat) (cl : Client A) :
    Except (ClientError A) Nat × Client A :=
  let requestId := cl.requestCounter
  let cl := { cl with requestCounter := cl.requestCounter + 1 }
  let target : Option Nat :=
    match peerIdOverride with
    | some pid => some pid
    | none =>
      match cl.leader with
      | some leaderId => some leaderId
      | none => chooseFn cl.cluster
  match target with
  | none => (.error .emptyCluster, cl)
  | some targetPeerId =>
    let cl := { cl with queries := mapInsert cl.queries requestId q }
    (.ok requestId,
      { cl with
        bufferedClientTransmits := cl.bufferedClientTransmits ++
          [⟨cl.id, targetPeerId, requestId, .queryRequest ⟨q⟩⟩] })

/-- Witness client for C8: created against an empty cluster. -/
def C8client : Client TestApp :=
  Client.new TestApp 1 []

/-- Client for the C8 counterexample's second part: empty cluster but a
cached leader (as left by a `LeaderChanged` reply to an override call). -/
def C8ledClient : Client TestApp :=
  { C8client with leader := some 3 }

/-- C8 counterexample: on a client whose cluster is empty, the
`EmptyCluster` error is not returned for every override and cached-leader
state. A `command` with an explicit `peer_id` override succeeds and
enqueues a CommandRequest transmit to the overridden peer (the override
is taken before the cluster is consulted), and a `command` with no
override on a client with a cached leader succeeds and enqueues the
transmit to that leader (the cached leader is likewise taken before the
cluster is consulted). -/
theorem C8_override_bypasses_empty_cluster :
    ((Client.command (fun l => l.head?) (7 : Nat) (some 2) C8client).1 = .ok 0 ∧
      (Client.command (fun l => l.head?) (7 : Nat) (some 2) C8client).2.bufferedClientTransmits =
        [⟨1, 2, 0, .commandRequest ⟨7⟩⟩]) ∧
    ((Client.command (fun l => l.head?) (7 : Nat) none C8ledClient).1 = .ok 0 ∧
      (Client.command (fun l => l.head?) (7 : Nat) none C8ledClient).2.bufferedClientTransmits =
        [⟨1, 3, 0, .commandRequest ⟨7⟩⟩]) := by
  refine ⟨⟨?_, ?_⟩, ?_, ?_⟩ <;> rfl

/-- C8 (amended): a `command` or `query` on a client whose cluster is
empty returns the `EmptyCluster` error and enqueues no transmit (leaving
the pending tables untouched and only the request counter advanced)
when no explicit `peer_id` override is given and no leader is cached;
the counterexample shows that an explicit override, or a cached leader
when no override is given, is instead used as the target without
consulting the cluster. -/
theorem C8_empty_cluster_requires_no_target (cl : Client A)
    (chooseFn : List Nat → Option Nat) (cmd : A.Command) (q : A.Query)
    (hcl : cl.cluster = []) (hld : cl.leader = none) (hch : chooseFn [] = none) :
    Client.command chooseFn cmd none cl =
        (.error .emptyCluster, { cl with requestCounter := cl.requestCounter + 1 }) ∧
      Client.query chooseFn q none cl =
        (.error .emptyCluster, { cl with requestCounter := cl.requestCounter + 1 }) := by
  constructor <;>
    simp only [Client.command, Client.query, hld, hcl, hch]

/-- Witness for C8 (amended) at a concrete client. -/
theorem C8_empty_cluster_witness :
    Client.command (fun l => l.head?) (7 : Nat) none C8client =
        (.error .emptyCluster, { C8client with requestCounter := C8client.requestCounter + 1 }) ∧
      Client.query (fun l => l.head?) (9 : Nat) none C8client =
        (.error .emptyCluster, { C8client with requestCounter := C8client.requestCounter + 1 }) :=
  C8_empty_cluster_requires_no_target C8client (fun l => l.head?) 7 9 rfl rfl rfl

/-- Sorted insertion for the position-keyed `ordered_transmits` BTreeMap of
the plural simulator actions (simulation.rs): later bindings for the same
position overwrite. -/
def mapInsertSorted (m : List (Nat × α)) (k : Nat) (v : α) : List (Nat × α) :=
  match m with
  | [] => [(k, v)]
  | e :: rest =>
    if k < e.1 then (k, v) :: e :: rest
    else if k = e.1 then (k, v) :: rest
    else e :: mapInsertSorted rest k v

/-- `BTreeSet` collection of a list of ids (ascending, deduplicated). -/
def sortedDedup (l : List Nat) : List Nat :=
  l.foldl setInsert []

/-- Sorted-list model of `BTreeSet::insert` on pairs (lexicographic). -/
def setInsertPair (s : List (Nat × Nat)) (x : Nat × Nat) : List (Nat × Nat) :=
  match s with
  | [] => [x]
  | y :: rest =>
    if x.1 < y.1 ∨ (x.1 = y.1 ∧ x.2 < y.2) then x :: y :: rest
    else if x = y then y :: rest
    else y :: setInsertPair rest x

/-- `BTreeSet` collection of a list of id pairs. -/
def sortedDedupPairs (l : List (Nat × Nat)) : List (Nat × Nat) :=
  l.foldl setInsertPair []

/-- Errors returned by `Simulation::perform` for transmit and drop actions
with no matching buffered transmit, carrying the offending ids
(simulation.rs). -/
inductive SimError where
  | cannotTransmitPeerRequest (requestId peerId : Nat)
  | cannotTransmitPeerRequests (missing : List Nat) (peerId : Nat)
  | cannotDropPeerRequest (requestId peerId : Nat)
  | cannotDropPeerRequests (missing : List Nat) (peerId : Nat)
  | cannotTransmitPeerReply (requestId repliedPeerId peerId : Nat)
  | cannotTransmitPeerReplies (missing : List (Nat × Nat)) (peerId : Nat)
  | cannotDropPeerReply (requestId repliedPeerId peerId : Nat)
  | cannotDropPeerReplies (missing : List (Nat × Nat)) (peerId : Nat)
deriving DecidableEq

/-- `Simulation`: the clients and the live peers (simulation.rs). Peer `i`
lives at vector position `i - 1`. -/
structure Simulation (A : App) where
  clients : List (Client A)
  peers : List (Peer A)

/-- Peer lookup by id (`self.peers[peer_id.0 - 1]`); an out-of-range id is
an index panic, modelled as `none` by the callers. -/
def Simulation.getPeer? (s : Simulation A) (peerId : Nat) : Option (Peer A) :=
  s.peers.get? (peerId - 1)

/-- Replace the peer with the given id. -/
def Simulation.setPeer (s : Simulation A) (peerId : Nat) (p : Peer A) : Simulation A :=
  { s with peers := s.peers.set (peerId - 1) p }

/-- Deliver a removed transmit of `senderId` to its target peer, which
processes it synchronously (storage writes succeeding). -/
def Simulation.deliverPeerTransmit (s : Simulation A) (senderId : Nat)
    (t : PeerTransmit A) : Option (Simulation A) :=
  match s.getPeer? t.peerId with
  | none => none
  | some target =>
    (target.receivePeerMessage senderId t.requestId t.message true true).map
      (s.setPeer t.peerId)

/-- Deliver a list of removed transmits in order. -/
def Simulation.deliverAll (s : Simulation A) (senderId : Nat) :
    List (PeerTransmit A) → Option (Simulation A)
  | [] => some s
  | t :: rest =>
    match s.deliverPeerTransmit senderId t with
    | none => none
    | some s2 => s2.deliverAll senderId rest

/-- `Action::TransmitPeerRequest` (simulation.rs lines 144-172): find the
first buffered request transmit with the id; deliver it, or report a
descriptive error leaving the state untouched. The result pairs the final
simulation with the optional error. -/
def Simulation.transmitPeerRequest (s : Simulation A) (peerId requestId : Nat) :
    Option (Simulation A × Option SimError) :=
  match s.getPeer? peerId with
  | none => none
  | some peer =>
    match peer.bufferedPeerTransmits.findIdx?
        (fun t => t.message.isRequest && t.requestId == requestId) with
    | none => some (s, some (.cannotTransmitPeerRequest requestId peerId))
    | some pos =>
      match peer.bufferedPeerTransmits.get? pos with
      | none => none
      | some t =>
        let s2 := s.setPeer peerId
          { peer with bufferedPeerTransmits := peer.bufferedPeerTransmits.eraseIdx pos }
        (s2.deliverPeerTransmit peerId t).map (fun s3 => (s3, none))

/-- `Action::DropPeerRequest` (simulation.rs lines 223-244). -/
def Simulation.dropPeerRequest (s : Simulation A) (peerId requestId : Nat) :
    Option (Simulation A × Option SimError) :=
  match s.getPeer? peerId with
  | none => none
  | some peer =>
    match peer.bufferedPeerTransmits.findIdx?
        (fun t => t.message.isRequest && t.requestId == requestId) with
    | none => some (s, some (.cannotDropPeerRequest requestId peerId))
    | some pos =>
      some (s.setPeer peerId
        { peer with bufferedPeerTransmits := peer.bufferedPeerTransmits.eraseIdx pos }, none)

/-- The take-and-partition pass shared by the plural request actions
(simulation.rs lines 177-195 and 249-267): the queue is drained;
non-request transmits and unrequested ids are kept in order, matched ones
are keyed by the position of their request id in the caller's list. -/
def collectPeerRequests (q : List (PeerTransmit A)) (requestIds : List Nat) :
    List (Nat × PeerTransmit A) × List (PeerTransmit A) :=
  q.foldl
    (fun acc t =>
      if !t.message.isRequest then (acc.1, acc.2 ++ [t])
      else
        match requestIds.findIdx? (fun c => c == t.requestId) with
        | some pos => (mapInsertSorted acc.1 pos t, acc.2)
        | none => (acc.1, acc.2 ++ [t]))
    ([], [])

/-- The take-and-partition pass shared by the plural reply actions
(simulation.rs lines 325-354 and 410-436), keyed by
`(replied peer, request id)` pairs. -/
def collectPeerReplies (q : List (PeerTransmit A)) (pairs : List (Nat × Nat)) :
    List (Nat × PeerTransmit A) × List (PeerTransmit A) :=
  q.foldl
    (fun acc t =>
      if !t.message.isReply then (acc.1, acc.2 ++ [t])
      else
        match pairs.findIdx? (fun c => c == (t.peerId, t.requestId)) with
        | some pos => (mapInsertSorted acc.1 pos t, acc.2)
        | none => (acc.1, acc.2 ++ [t]))
    ([], [])

/-- `Action::TransmitPeerRequests` (simulation.rs lines 173-221): the queue
is taken (`std::mem::take`), matched transmits are delivered in the
caller's listed order, and if any listed id had no match the action
returns the descriptive error *before* the line that restores the kept
transmits into the queue — so on the error path the non-matching transmits
are lost and the matched ones were already delivered. -/
def Simulation.transmitPeerRequests (s : Simulation A) (peerId : Nat)
    (requestIds : List Nat) : Option (Simulation A × Option SimError) :=
  match s.getPeer? peerId with
  | none => none
  | some peer =>
    let col := collectPeerRequests peer.bufferedPeerTransmits requestIds
    let s2 := s.setPeer peerId { peer with bufferedPeerTransmits := [] }
    match s2.deliverAll peerId (mapValues col.1) with
    | none => none
    | some s3 =>
      let delivered := (mapValues col.1).map (·.requestId)
      let nonExisting := (sortedDedup requestIds).filter (fun r => !delivered.contains r)
      if nonExisting = [] then
        match s3.getPeer? peerId with
        | none => none
        | some peerNow =>
          some (s3.setPeer peerId { peerNow with bufferedPeerTransmits := col.2 }, none)
      else
        some (s3, some (.cannotTransmitPeerRequests nonExisting peerId))

/-- `Action::DropPeerRequests` (simulation.rs lines 245-286): same
take-and-partition pass without deliveries; the same early error return
loses the kept transmits. -/
def Simulation.dropPeerRequests (s : Simulation A) (peerId : Nat)
    (requestIds : List Nat) : Option (Simulation A × Option SimError) :=
  match s.getPeer? peerId with
  | none => none
  | some peer =>
    let col := collectPeerRequests peer.bufferedPeerTransmits requestIds
    let s2 := s.setPeer peerId { peer with bufferedPeerTransmits := [] }
    let dropped := (mapValues col.1).map (·.requestId)
    let nonExisting := (sortedDedup requestIds).filter (fun r => !dropped.contains r)
    if nonExisting = [] then
      some (s2.setPeer peerId { peer with bufferedPeerTransmits := col.2 }, none)
    else
      some (s2, some (.cannotDropPeerRequests nonExisting peerId))

/-- `Action::TransmitPeerReply` (simulation.rs lines 288-324). -/
def Simulation.transmitPeerReply (s : Simulation A) (peerId repliedPeerId requestId : Nat) :
    Option (Simulation A × Option SimError) :=
  match s.getPeer? peerId with
  | none => none
  | some peer =>
    match peer.bufferedPeerTransmits.findIdx?
        (fun t => t.message.isReply && t.peerId == repliedPeerId
          && t.requestId == requestId) with
    | none => some (s, some (.cannotTransmitPeerReply requestId repliedPeerId peerId))
    | some pos =>
      match peer.bufferedPeerTransmits.get? pos with
      | none => none
      | some t =>
        let s2 := s.setPeer peerId
          { peer with bufferedPeerTransmits := peer.bufferedPeerTransmits.eraseIdx pos }
        (s2.deliverPeerTransmit peerId t).map (fun s3 => (s3, none))

/-- `Action::DropPeerReply` (simulation.rs lines 383-409). -/
def Simulation.dropPeerReply (s : Simulation A) (peerId repliedPeerId requestId : Nat) :
    Option (Simulation A × Option SimError) :=
  match s.getPeer? peerId with
  | none => none
  | some peer =>
    match peer.bufferedPeerTransmits.findIdx?
        (fun t => t.message.isReply && t.peerId == repliedPeerId
          && t.requestId == requestId) with
    | none => some (s, some (.cannotDropPeerReply requestId repliedPeerId peerId))
    | some pos =>
      some (s.setPeer peerId
        { peer with bufferedPeerTransmits := peer.bufferedPeerTransmits.eraseIdx pos }, none)

/-- `Action::TransmitPeerReplies` (simulation.rs lines 325-381): plural
reply delivery with the same early error return before the queue restore. -/
def Simulation.transmitPeerReplies (s : Simulation A) (peerId : Nat)
    (pairs : List (Nat × Nat)) : Option (Simulation A × Option SimError) :=
  match s.getPeer? peerId with
  | none => none
  | some peer =>
    let col := collectPeerReplies peer.bufferedPeerTransmits pairs
    let s2 := s.setPeer peerId { peer with bufferedPeerTransmits := [] }
    match s2.deliverAll peerId (mapValues col.1) with
    | none => none
    | some s3 =>
      let delivered := (mapValues col.1).map (fun t => (t.peerId, t.requestId))
      let nonExisting := (sortedDedupPairs pairs).filter (fun c => !delivered.contains c)
      if nonExisting = [] then
        match s3.getPeer? peerId with
        | none => none
        | some peerNow =>
          some (s3.setPeer peerId { peerNow with bufferedPeerTransmits := col.2 }, none)
      else
        some (s3, some (.cannotTransmitPeerReplies nonExisting peerId))

/-- `Action::DropPeerReplies` (simulation.rs lines 410-456). -/
def Simulation.dropPeerReplies (s : Simulation A) (peerId : Nat)
    (pairs : List (Nat × Nat)) : Option (Simulation A × Option SimError) :=
  match s.getPeer? peerId with
  | none => none
  | some peer =>
    let col := collectPeerReplies peer.bufferedPeerTransmits pairs
    let s2 := s.setPeer peerId { peer with bufferedPeerTransmits := [] }
    let dropped := (mapValues col.1).map (fun t => (t.peerId, t.requestId))
    let nonExisting := (sortedDedupPairs pairs).filter (fun c => !dropped.contains c)
    if nonExisting = [] then
      some (s2.setPeer peerId { peer with bufferedPeerTransmits := col.2 }, none)
    else
      some (s2, some (.cannotDropPeerReplies nonExisting peerId))

/-- Buffered request transmit of the C6 evaluation: a RequestVote from
peer 1 to peer 2 under request id 0. -/
def C6transmit : PeerTransmit TestApp :=
  ⟨2, 0, .requestVoteRequest ⟨1, 1, 0, 0⟩⟩

/-- Peer 1 of the C6 evaluation, holding one buffered request transmit. -/
def C6peer : Peer TestApp :=
  { Peer.new TestApp 1 [1, 2] .strong freshStorage with
    bufferedPeerTransmits := [C6transmit] }

/-- Simulation of the C6 evaluation. -/
def C6sim : Simulation TestApp :=
  ⟨[], [C6peer]⟩

/-- C6: a singular transmit naming a request id with no matching buffered
transmit returns the descriptive error and leaves the whole simulation
unchanged, but the plural form on the same state returns its descriptive
error with peer 1's non-matching buffered transmit lost: the queue was
taken (`std::mem::take`) and the error path returns before the statement
that restores it, so the buffered queue ends empty even though the queue
held a transmit before the action. -/
theorem C6_missing_transmit_eval :
    C6sim.transmitPeerRequest 1 99 =
        some (C6sim, some (.cannotTransmitPeerRequest 99 1)) ∧
      C6sim.transmitPeerRequests 1 [99] =
        some (⟨[], [{ C6peer with bufferedPeerTransmits := [] }]⟩,
          some (.cannotTransmitPeerRequests [99] 1)) ∧
      C6peer.bufferedPeerTransmits = [C6transmit] := by
  refine ⟨rfl, rfl, rfl⟩

/-- Length of the consecutive-ids list. -/
theorem idsFrom_length (l : List Nat) : ∀ c0 : Nat, (idsFrom c0 l).length = l.length := by
  induction l with
  | nil => intro c0; rfl
  | cons x rest ih =>
    intro c0
    simp only [idsFrom, List.length_cons, ih (c0 + 1)]

/-- Every consecutive id is at least the starting counter. -/
theorem idsFrom_ge (l : List Nat) : ∀ c0 : Nat, ∀ x ∈ idsFrom c0 l, c0 ≤ x := by
  induction l with
  | nil => intro c0 x hx; cases hx
  | cons y rest ih =>
    intro c0 x hx
    rcases List.mem_cons.mp hx with he | he
    · omega
    · have := ih (c0 + 1) x he
      omega

/-- The consecutive ids are pairwise distinct. -/
theorem idsFrom_nodup (l : List Nat) : ∀ c0 : Nat, (idsFrom c0 l).Nodup := by
  induction l with
  | nil => intro c0; exact List.nodup_nil
  | cons y rest ih =>
    intro c0
    refine List.nodup_cons.mpr ⟨?_, ih (c0 + 1)⟩
    intro hmem
    have := idsFrom_ge rest (c0 + 1) c0 hmem
    omega

/-- Removing the peer's own id from its duplicate-free cluster shortens it
by exactly one. -/
theorem filter_ne_length (cluster : List Nat) (id : Nat) :
    id ∈ cluster → cluster.Nodup →
    (cluster.filter (fun q => q ≠ id)).length + 1 = cluster.length := by
  induction cluster with
  | nil => intro hmem; cases hmem
  | cons x rest ih =>
    intro hmem hnd
    have hnd2 := List.nodup_cons.mp hnd
    by_cases hx : x = id
    · subst hx
      have hall : rest.filter (fun q => decide (q ≠ x)) = rest := by
        apply List.filter_eq_self.mpr
        intro y hy
        simp only [decide_eq_true_eq]
        intro he
        exact hnd2.1 (he ▸ hy)
      simp only [List.filter_cons]
      rw [if_neg (by simp), hall]
      simp
    · have hmem2 : id ∈ rest := by
        rcases List.mem_cons.mp hmem with he | he
        · exact absurd he.symm hx
        · exact he
      have := ih hmem2 hnd2.2
      simp only [List.filter_cons]
      rw [if_pos (by simp [hx])]
      simp only [List.length_cons]
      omega

/-- The invariant of C9 together with the cluster facts it rides on: the
peer's id is a member of its duplicate-free cluster, and in a candidate
role the granted votes plus the outstanding vote request ids always total
the cluster size, with the outstanding ids pairwise distinct. -/
def CandidateInvariant (p : Peer A) : Prop :=
  p.id ∈ p.cluster ∧ p.cluster.Nodup ∧
    ∀ cs : CandidateState, p.role = .candidate cs →
      cs.votesGranted + cs.voteRequestIds.length = p.cluster.length ∧
        cs.voteRequestIds.Nodup

/-- `become_leader` leaves id and cluster unchanged and installs a leader
role. -/
theorem becomeLeader_shape (p : Peer A) :
    (p.becomeLeader).id = p.id ∧ (p.becomeLeader).cluster = p.cluster ∧
      ∃ ls, (p.becomeLeader).role = .leader ls :=
  ⟨rfl, rfl, ⟨_, rfl⟩⟩

/-- The invariant is preserved by an election timeout. -/
theorem electionTimeout_inv (okW : Bool) (p : Peer A)
    (hinv : CandidateInvariant p) : CandidateInvariant (p.triggerElectionTimeout okW) := by
  unfold Peer.triggerElectionTimeout
  by_cases hok : okW = false
  · rw [if_pos hok]
    exact hinv
  · rw [if_neg hok]
    dsimp only
    by_cases hone : p.cluster.length = 1
    · rw [if_pos hone]
      refine ⟨hinv.1, hinv.2.1, ?_⟩
      intro cs hcs
      simp [Peer.becomeLeader] at hcs
    · rw [if_neg hone]
      refine ⟨hinv.1, hinv.2.1, ?_⟩
      intro cs hcs
      dsimp only at hcs
      rw [rvFanout_spec p.id _ p.cluster p.requestCounter [] [] (by intro y hy; cases hy)]
        at hcs
      simp only [Role.candidate.injEq] at hcs
      subst hcs
      simp only [List.nil_append]
      constructor
      · rw [idsFrom_length]
        have := filter_ne_length p.cluster p.id hinv.1 hinv.2.1
        omega
      · exact idsFrom_nodup _ _

/-- The invariant is preserved by a heartbeat timeout. -/
theorem heartbeatTimeout_inv (p : Peer A)
    (hinv : CandidateInvariant p) : CandidateInvariant p.triggerHeartbeatTimeout := by
  unfold Peer.triggerHeartbeatTimeout
  rcases hr : p.role with l | cs | ls
  · exact hinv
  · exact hinv
  · refine ⟨hinv.1, hinv.2.1, ?_⟩
    intro cs hcs
    cases hcs

/-- The invariant is preserved by applying committed entries. -/
theorem applyCommitted_inv (p p2 : Peer A) (h : p.applyCommitted = some p2)
    (hinv : CandidateInvariant p) : CandidateInvariant p2 := by
  unfold Peer.applyCommitted at h
  rcases hgo : applyCommittedGo A p.storage.log (p.commitIndex - p.lastApplied)
      p.lastApplied p.machine with _ | res
  · rw [hgo] at h
    cases h
  · rw [hgo] at h
    cases h
    exact ⟨hinv.1, hinv.2.1, fun cs hcs => hinv.2.2 cs hcs⟩

/-- A RequestVote reception only ever changes the peer's storage view. -/
theorem rvRequest_receive_storage_only (msg : RequestVoteRequest) (sendingPeerId : Nat)
    (ok1 ok2 : Bool) (p : Peer A) :
    ∃ st, (msg.receive sendingPeerId ok1 ok2 p).2 = { p with storage := st } := by
  unfold RequestVoteRequest.receive voteUpToDateCheck
  dsimp only
  repeat' first
  | exact ⟨_, rfl⟩
  | split

/-- `apply_committed` only ever changes `last_applied` and the machine. -/
theorem applyCommitted_shape (p p2 : Peer A) (h : p.applyCommitted = some p2) :
    ∃ la m, p2 = { p with lastApplied := la, machine := m } := by
  unfold Peer.applyCommitted at h
  rcases hgo : applyCommittedGo A p.storage.log (p.commitIndex - p.lastApplied)
      p.lastApplied p.machine with _ | res
  · rw [hgo] at h
    cases h
  · rw [hgo] at h
    cases h
    exact ⟨_, _, rfl⟩

/-- Frame lemma: a peer with the same cluster and id whose role is
unchanged, a leader role, or a follower role inherits the invariant. -/
theorem frameInv (p : Peer A) (hinv : CandidateInvariant p) (p2 : Peer A)
    (hc : p2.cluster = p.cluster) (hi : p2.id = p.id)
    (hrole : p2.role = p.role ∨ (∃ ls, p2.role = Role.leader ls) ∨
      ∃ l, p2.role = Role.follower l) :
    CandidateInvariant p2 := by
  refine ⟨?_, ?_, ?_⟩
  · rw [hc, hi]
    exact hinv.1
  · rw [hc]
    exact hinv.2.1
  · intro cs2 hcs2
    rw [hc]
    rcases hrole with hrr | ⟨ls, hrr⟩ | ⟨l, hrr⟩
    · exact hinv.2.2 cs2 (by rw [← hrr]; exact hcs2)
    · rw [hrr] at hcs2
      cases hcs2
    · rw [hrr] at hcs2
      cases hcs2

/-- The invariant is preserved by receiving a RequestVote request. -/
theorem rvRequest_receive_inv (msg : RequestVoteRequest) (sendingPeerId : Nat)
    (ok1 ok2 : Bool) (p : Peer A) (hinv : CandidateInvariant p) :
    CandidateInvariant (msg.receive sendingPeerId ok1 ok2 p).2 := by
  obtain ⟨st, hst⟩ := rvRequest_receive_storage_only msg sendingPeerId ok1 ok2 p
  rw [hst]
  exact frameInv p hinv _ rfl rfl (Or.inl rfl)

/-- An accepted or rejected AppendEntries leaves id and cluster unchanged
and either keeps the role or installs a follower role. -/
theorem aeRequest_receive_shape (msg : AppendEntriesRequest A) (sendingPeerId : Nat)
    (p : Peer A) (r : AppendEntriesReply) (p2 : Peer A)
    (h : msg.receive sendingPeerId p = some (r, p2)) :
    p2.cluster = p.cluster ∧ p2.id = p.id ∧
      (p2.role = p.role ∨ ∃ l, p2.role = .follower l) := by
  unfold AppendEntriesRequest.receive appendEntriesAccept at h
  dsimp only at h
  repeat' first
  | (cases h
     all_goals first
     | exact ⟨rfl, rfl, Or.inl rfl⟩
     | exact ⟨rfl, rfl, Or.inr ⟨_, rfl⟩⟩)
  | split at h
  | dsimp only at h

/-- The invariant is preserved by receiving a RequestVoteReply. -/
theorem rvReply_receive_inv (msg : RequestVoteReply) (sendingPeerId requestId : Nat)
    (okW : Bool) (p p2 : Peer A) (h : msg.receive sendingPeerId requestId okW p = some p2)
    (hinv : CandidateInvariant p) : CandidateInvariant p2 := by
  unfold RequestVoteReply.receive at h
  by_cases hterm : p.currentTerm < msg.term
  · rw [if_pos hterm] at h
    dsimp only at h
    cases h
    exact frameInv p hinv _ rfl rfl (Or.inr (Or.inr ⟨_, rfl⟩))
  · rw [if_neg hterm] at h
    rcases hr : p.role with l | cs | ls
    · simp only [hr] at h
      cases h
      exact hinv
    · simp only [hr] at h
      by_cases hid : requestId ∈ cs.voteRequestIds
      · rw [if_pos hid] at h
        have hcsfacts := hinv.2.2 cs hr
        rcases hv : msg.vote with _ | _ | _ | _ | _
        · simp only [hv] at h
          cases h
          exact frameInv p hinv _ rfl rfl (Or.inl rfl)
        · simp only [hv] at h
          cases h
          exact frameInv p hinv _ rfl rfl (Or.inl rfl)
        · simp only [hv] at h
          cases h
          exact frameInv p hinv _ rfl rfl (Or.inl rfl)
        · simp only [hv] at h
          cases h
          refine ⟨hinv.1, hinv.2.1, ?_⟩
          intro cs2 hcs2
          have hcc : Role.candidate cs = Role.candidate cs2 := hcs2
          cases hcc
          exact hinv.2.2 cs hr
        · simp only [hv] at h
          by_cases hmt : msg.term = p.currentTerm
          · rw [if_pos hmt] at h
            by_cases hmaj :
                ({ p with role := .candidate (cs.grantVote requestId) } : Peer A).majority ≤
                  (cs.grantVote requestId).votesGranted
            · rw [if_pos hmaj] at h
              cases h
              refine frameInv p hinv _ ?_ ?_ (Or.inr (Or.inl ?_))
              · exact (becomeLeader_shape _).2.1
              · exact (becomeLeader_shape _).1
              · exact (becomeLeader_shape _).2.2
            · rw [if_neg hmaj] at h
              cases h
              refine ⟨hinv.1, hinv.2.1, ?_⟩
              intro cs2 hcs2
              have hcc : cs.grantVote requestId = cs2 := by
                simpa only [Role.candidate.injEq] using hcs2
              rw [← hcc]
              unfold CandidateState.grantVote
              rw [if_pos hid]
              constructor
              · show cs.votesGranted + 1 + (cs.voteRequestIds.erase requestId).length
                  = p.cluster.length
                rw [List.length_erase_of_mem hid]
                have hpos : 0 < cs.voteRequestIds.length := List.length_pos_of_mem hid
                have hsum := hcsfacts.1
                omega
              · show (cs.voteRequestIds.erase requestId).Nodup
                exact hcsfacts.2.erase requestId
          · rw [if_neg hmt] at h
            cases h
      · rw [if_neg hid] at h
        cases h
        exact hinv
    · simp only [hr] at h
      cases h
      exact hinv

/-- An AppendEntriesReply reception leaves id and cluster unchanged and
either keeps the role, keeps a leader role, or steps down to follower. -/
theorem aeReply_receive_shape (msg : AppendEntriesReply) (sendingPeerId requestId : Nat)
    (okW : Bool) (p p2 : Peer A) (h : msg.receive sendingPeerId requestId okW p = some p2) :
    p2.cluster = p.cluster ∧ p2.id = p.id ∧
      (p2.role = p.role ∨ (∃ ls, p2.role = Role.leader ls) ∨
        ∃ l, p2.role = Role.follower l) := by
  unfold AppendEntriesReply.receive at h
  dsimp only at h
  by_cases hterm : p.storage.currentTerm < msg.term
  · rw [if_pos hterm] at h
    cases h
    refine ⟨rfl, rfl, ?_⟩
    rcases hr : p.role with l | cs | ls
    · refine Or.inl ?_
      simp only [hr]
    · refine Or.inl ?_
      simp only [hr]
    · refine Or.inr (Or.inr ⟨none, ?_⟩)
      simp only [hr]
  · rw [if_neg hterm] at h
    repeat' first
    | (cases h
       all_goals first
       | exact ⟨rfl, rfl, Or.inl rfl⟩
       | exact ⟨rfl, rfl, Or.inr (Or.inl ⟨_, rfl⟩)⟩
       | exact ⟨rfl, rfl, Or.inr (Or.inr ⟨_, rfl⟩)⟩)
    | split at h
    | dsimp only at h

/-- The invariant is preserved by receiving an AppendEntriesReply. -/
theorem aeReply_receive_inv (msg : AppendEntriesReply) (sendingPeerId requestId : Nat)
    (okW : Bool) (p p2 : Peer A) (h : msg.receive sendingPeerId requestId okW p = some p2)
    (hinv : CandidateInvariant p) : CandidateInvariant p2 := by
  obtain ⟨hc, hi, hrole⟩ := aeReply_receive_shape msg sendingPeerId requestId okW p p2 h
  exact frameInv p hinv p2 hc hi hrole

/-- The invariant is preserved by `Peer::receive_peer_message`. -/
theorem receivePeerMessage_inv (sendingPeerId requestId : Nat) (msg : PeerMessage A)
    (ok1 ok2 : Bool) (p p2 : Peer A)
    (h : p.receivePeerMessage sendingPeerId requestId msg ok1 ok2 = some p2)
    (hinv : CandidateInvariant p) : CandidateInvariant p2 := by
  rcases msg with r | r | r | r
  · unfold Peer.receivePeerMessage at h
    dsimp only at h
    cases h
    exact frameInv _ (rvRequest_receive_inv r sendingPeerId ok1 ok2 p hinv) _ rfl rfl
      (Or.inl rfl)
  · exact rvReply_receive_inv r sendingPeerId requestId ok1 p p2 h hinv
  · unfold Peer.receivePeerMessage at h
    rcases hrec : r.receive sendingPeerId p with _ | ⟨reply, p3⟩
    · simp only [hrec] at h
      cases h
    · simp only [hrec] at h
      cases h
      obtain ⟨hc, hi, hrole⟩ := aeRequest_receive_shape r sendingPeerId p reply p3 hrec
      refine frameInv p hinv _ hc hi ?_
      rcases hrole with h1 | ⟨l, h1⟩
      · exact Or.inl h1
      · exact Or.inr (Or.inr ⟨l, h1⟩)
  · exact aeReply_receive_inv r sendingPeerId requestId ok1 p p2 h hinv

/-- The invariant is preserved by `CommandRequest::receive`. -/
theorem commandRequest_receive_inv (msg : CommandRequest A)
    (appendErr : Option A.StorageError) (p : Peer A) (hinv : CandidateInvariant p) :
    CandidateInvariant (msg.receive appendErr p).2 := by
  unfold CommandRequest.receive
  rcases appendErr with _ | e
  · rcases hr : p.role with l | cs | ls
    · rcases l with _ | lid
      · simp only [hr]
        exact hinv
      · simp only [hr]
        exact hinv
    · simp only [hr]
      exact hinv
    · simp only [hr]
      exact frameInv p hinv _ rfl rfl (Or.inr (Or.inl ⟨_, rfl⟩))
  · rcases hr : p.role with l | cs | ls
    · rcases l with _ | lid
      · simp only [hr]
        exact hinv
      · simp only [hr]
        exact hinv
    · simp only [hr]
      exact hinv
    · simp only [hr]
      exact hinv

/-- The invariant is preserved by `QueryRequest::receive`. -/
theorem queryRequest_receive_inv (msg : QueryRequest A) (p : Peer A)
    (res : Option (QueryReply A) × Peer A) (h : msg.receive p = some res)
    (hinv : CandidateInvariant p) : CandidateInvariant res.2 := by
  unfold QueryRequest.receive at h
  rcases hcons : p.consistency
  · simp only [hcons] at h
    rcases hr : p.role with l | cs | ls
    · rcases l with _ | lid
      · simp only [hr] at h
        cases h
        exact hinv
      · simp only [hr] at h
        cases h
        exact hinv
    · simp only [hr] at h
      cases h
      exact hinv
    · simp only [hr] at h
      cases h
      exact hinv
  · simp only [hcons] at h
    by_cases hb : p.lastApplied < p.commitIndex
    · rw [if_pos hb] at h
      rcases hap : p.applyCommitted with _ | p3
      · rw [hap] at h
        cases h
      · rw [hap] at h
        cases h
        exact applyCommitted_inv p p3 hap hinv
    · rw [if_neg hb] at h
      cases h
      exact hinv

/-- The invariant is preserved by `Peer::receive_client_message`. -/
theorem receiveClientMessage_inv (clientId requestId : Nat) (msg : ClientMessage A)
    (appendErr : Option A.StorageError) (p p2 : Peer A)
    (h : p.receiveClientMessage clientId requestId msg appendErr = some p2)
    (hinv : CandidateInvariant p) : CandidateInvariant p2 := by
  unfold Peer.receiveClientMessage at h
  rcases msg with r | r | r | r
  · dsimp only at h
    rcases hres : (r.receive appendErr p).1 with _ | reply
    · rw [hres] at h
      cases h
      exact commandRequest_receive_inv r appendErr p hinv
    · rw [hres] at h
      cases h
      exact frameInv _ (commandRequest_receive_inv r appendErr p hinv) _ rfl rfl
        (Or.inl rfl)
  · cases h
    exact hinv
  · dsimp only at h
    rcases hrec : r.receive p with _ | res
    · rw [hrec] at h
      cases h
    · rcases res with ⟨orep, p3⟩
      rcases orep with _ | rep
      · rw [hrec] at h
        cases h
        exact queryRequest_receive_inv r p _ hrec hinv
      · rw [hrec] at h
        cases h
        exact frameInv _ (queryRequest_receive_inv r p _ hrec hinv) _ rfl rfl
          (Or.inl rfl)
  · cases h
    exact hinv

/-- One simulator-visible mutation of a single peer: the four library entry
points, plus arbitrary rewriting of the two buffered transmit queues (the
simulator drains and refills them when moving transmits). -/
inductive PeerStep : Peer A → Peer A → Prop where
  | electionTimeout (okW : Bool) (p : Peer A) :
      PeerStep p (p.triggerElectionTimeout okW)
  | heartbeatTimeout (p : Peer A) : PeerStep p p.triggerHeartbeatTimeout
  | peerMessage (sendingPeerId requestId : Nat) (msg : PeerMessage A) (ok1 ok2 : Bool)
      (p p2 : Peer A)
      (h : p.receivePeerMessage sendingPeerId requestId msg ok1 ok2 = some p2) :
      PeerStep p p2
  | clientMessage (clientId requestId : Nat) (msg : ClientMessage A)
      (appendErr : Option A.StorageError) (p p2 : Peer A)
      (h : p.receiveClientMessage clientId requestId msg appendErr = some p2) :
      PeerStep p p2
  | applyCommitted (p p2 : Peer A) (h : p.applyCommitted = some p2) : PeerStep p p2
  | queueSurgery (p : Peer A) (q1 : List (PeerTransmit A)) (q2 : List (ClientTransmit A)) :
      PeerStep p { p with bufferedPeerTransmits := q1, bufferedClientTransmits := q2 }

/-- Every single step preserves the candidate vote-accounting invariant. -/
theorem peerStep_inv (p p2 : Peer A) (hstep : PeerStep p p2)
    (hinv : CandidateInvariant p) : CandidateInvariant p2 := by
  cases hstep with
  | electionTimeout okW p => exact electionTimeout_inv okW p hinv
  | heartbeatTimeout p => exact heartbeatTimeout_inv p hinv
  | peerMessage sid rid msg ok1 ok2 p p2 h =>
      exact receivePeerMessage_inv sid rid msg ok1 ok2 p p2 h hinv
  | clientMessage cid rid msg err p p2 h =>
      exact receiveClientMessage_inv cid rid msg err p p2 h hinv
  | applyCommitted p p2 h => exact applyCommitted_inv p p2 h hinv
  | queueSurgery p q1 q2 => exact frameInv p hinv _ rfl rfl (Or.inl rfl)

/-- A peer state is reachable when some finite sequence of steps produces
it from a freshly constructed peer whose id belongs to its duplicate-free
cluster. -/
def ReachablePeer (p : Peer A) : Prop :=
  ∃ (id : Nat) (cluster : List Nat) (consistency : Consistency) (storage : Storage A),
    id ∈ cluster ∧ cluster.Nodup ∧
      Relation.ReflTransGen PeerStep (Peer.new A id cluster consistency storage) p

/-- Every reachable peer satisfies the candidate vote-accounting invariant. -/
theorem reachablePeer_inv (p : Peer A) (h : ReachablePeer p) : CandidateInvariant p := by
  obtain ⟨id, cluster, consistency, storage, hmem, hnd, hsteps⟩ := h
  induction hsteps with
  | refl => exact ⟨hmem, hnd, fun cs hcs => by simp [Peer.new] at hcs⟩
  | tail hsteps hstep ih => exact peerStep_inv _ _ hstep ih

/-- After a Granted RequestVoteReply is consumed, the consumed request id
is no longer outstanding in any resulting candidate state: `grant_vote`
erases it from the duplicate-free `vote_request_ids`. -/
theorem grantedDeliveryRemovesId (sendingPeerId requestId t : Nat) (ok1 ok2 : Bool)
    (p p2 : Peer A) (cs2 : CandidateState) (hinv : CandidateInvariant p)
    (h : p.receivePeerMessage sendingPeerId requestId
        (.requestVoteReply ⟨t, .granted⟩) ok1 ok2 = some p2)
    (hcs2 : p2.role = .candidate cs2) :
    requestId ∉ cs2.voteRequestIds := by
  simp only [Peer.receivePeerMessage] at h
  unfold RequestVoteReply.receive at h
  dsimp only at h
  by_cases hterm : p.currentTerm < t
  · rw [if_pos hterm] at h
    cases h
    cases hcs2
  · rw [if_neg hterm] at h
    rcases hr : p.role with l | cs | ls
    · simp only [hr] at h
      cases h
      rw [hr] at hcs2
      cases hcs2
    · simp only [hr] at h
      by_cases hid : requestId ∈ cs.voteRequestIds
      · rw [if_pos hid] at h
        by_cases hmt : t = p.currentTerm
        · rw [if_pos hmt] at h
          by_cases hmaj :
              ({ p with role := .candidate (cs.grantVote requestId) } : Peer A).majority ≤
                (cs.grantVote requestId).votesGranted
          · rw [if_pos hmaj] at h
            cases h
            simp [Peer.becomeLeader] at hcs2
          · rw [if_neg hmaj] at h
            cases h
            have hcc : cs.grantVote requestId = cs2 := by
              simpa only [Role.candidate.injEq] using hcs2
            rw [← hcc]
            unfold CandidateState.grantVote
            rw [if_pos hid]
            show requestId ∉ cs.voteRequestIds.erase requestId
            exact (hinv.2.2 cs hr).2.not_mem_erase
        · rw [if_neg hmt] at h
          cases h
      · rw [if_neg hid] at h
        cases h
        have hcc : (Role.candidate cs : Role A) = Role.candidate cs2 := by
          rw [← hr]
          exact hcs2
        cases hcc
        exact hid
    · simp only [hr] at h
      cases h
      rw [hr] at hcs2
      cases hcs2

/-- Delivering a Granted reply whose request id is not outstanding either
returns the candidate unchanged or steps it down on a higher term. -/
theorem secondGrantedDelivery (sendingPeerId requestId t2 : Nat) (ok3 ok4 : Bool)
    (p2 p3 : Peer A) (cs2 : CandidateState) (hrole : p2.role = .candidate cs2)
    (hnotin : requestId ∉ cs2.voteRequestIds)
    (h : p2.receivePeerMessage sendingPeerId requestId
        (.requestVoteReply ⟨t2, .granted⟩) ok3 ok4 = some p3) :
    p3 = p2 ∨ ∃ l, p3.role = Role.follower l := by
  simp only [Peer.receivePeerMessage] at h
  unfold RequestVoteReply.receive at h
  dsimp only at h
  by_cases hterm2 : p2.currentTerm < t2
  · rw [if_pos hterm2] at h
    cases h
    exact Or.inr ⟨none, rfl⟩
  · rw [if_neg hterm2] at h
    simp only [hrole] at h
    rw [if_neg hnotin] at h
    cases h
    exact Or.inl rfl

/-- C9: in every reachable peer state with a Candidate role,
`votes_granted` plus the number of outstanding ids in `vote_request_ids`
equals the cluster size, so `votes_granted` never exceeds the cluster
size; and because `grant_vote` erases the request id from the
duplicate-free outstanding list on the first Granted delivery, delivering
the same Granted reply again with the same request id either leaves the
peer unchanged or (on a higher reply term) steps it down to follower, so
it never increments `votes_granted` a second time. -/
theorem C9_candidate_vote_accounting (p : Peer A) (hreach : ReachablePeer p) :
    (∀ cs : CandidateState, p.role = .candidate cs →
      cs.votesGranted + cs.voteRequestIds.length = p.cluster.length ∧
        cs.votesGranted ≤ p.cluster.length) ∧
    ∀ (sendingPeerId requestId t : Nat) (ok1 ok2 : Bool) (p2 : Peer A)
      (cs2 : CandidateState),
      p.receivePeerMessage sendingPeerId requestId
          (.requestVoteReply ⟨t, .granted⟩) ok1 ok2 = some p2 →
      p2.role = .candidate cs2 →
      ∀ (t2 : Nat) (ok3 ok4 : Bool) (p3 : Peer A),
        p2.receivePeerMessage sendingPeerId requestId
            (.requestVoteReply ⟨t2, .granted⟩) ok3 ok4 = some p3 →
        p3 = p2 ∨ ∃ l, p3.role = Role.follower l := by
  have hinv := reachablePeer_inv p hreach
  constructor
  · intro cs hcs
    have hfacts := hinv.2.2 cs hcs
    exact ⟨hfacts.1, by omega⟩
  · intro sid rid t ok1 ok2 p2 cs2 h1 hcs2 t2 ok3 ok4 p3 h2
    exact secondGrantedDelivery sid rid t2 ok3 ok4 p2 p3 cs2 hcs2
      (grantedDeliveryRemovesId sid rid t ok1 ok2 p p2 cs2 hinv h1 hcs2) h2

/-- A concrete reachable candidate: peer 1 of cluster [1, 2, 3] right
after a successful election timeout. -/
def C9wPeer : Peer TestApp :=
  (Peer.new TestApp 1 [1, 2, 3] .strong freshStorage).triggerElectionTimeout true

theorem C9_vote_accounting_witness :
    (⟨1, [0, 1]⟩ : CandidateState).votesGranted +
        (⟨1, [0, 1]⟩ : CandidateState).voteRequestIds.length = C9wPeer.cluster.length ∧
      (⟨1, [0, 1]⟩ : CandidateState).votesGranted ≤ C9wPeer.cluster.length :=
  (C9_candidate_vote_accounting C9wPeer
    ⟨1, [1, 2, 3], .strong, freshStorage, by decide, by decide,
      Relation.ReflTransGen.single (PeerStep.electionTimeout true _)⟩).1
    ⟨1, [0, 1]⟩ (by rfl)

end Rafty
